import Mathlib

/-!
Formal model of the resilient market-data aggregation engine of the
deBridge data-provider plugin: decimal rate arithmetic (`utils/decimal.ts`),
the TTL cache and circuit breaker (`utils/cache.ts`), the retrying HTTP
client (`utils/http.ts`), and the snapshot orchestrator, liquidity-depth
computation and route-capacity prober (`service.ts`).

Conventions of the shallow embedding:
* wall-clock instants (`Date.now()`) are natural-number parameters;
* `decimal.js` values are modelled exactly over `ℚ`; JavaScript `number`
  arithmetic in the prober is modelled by `JsNum` (a rational together with
  the IEEE special values `Infinity`, `-Infinity`, `NaN`);
* network calls are parameters ("oracles") giving the outcome of each
  request, so every operation is a pure function of its oracle;
* thrown exceptions are `Except.error` / `Option.none` results.
-/

namespace DataProvider

/-- Numeric value of a decimal digit character; `none` on a non-digit. -/
def digitVal (c : Char) : Option Nat :=
  if c.isDigit then some (c.toNat - 48) else none

/-- Fold decimal digits into a natural number; fails on any non-digit. -/
def parseDigits (acc : Nat) : List Char → Option Nat
  | [] => some acc
  | c :: t =>
    match digitVal c with
    | some d => parseDigits (acc * 10 + d) t
    | none => none

/-- Parse a nonempty, all-digit character list into a natural number. -/
def parseNatStr (cs : List Char) : Option Nat :=
  if cs.isEmpty then none else parseDigits 0 cs

/-- Model of JavaScript `BigInt(string)` restricted to optionally signed
decimal integer strings, the only shape the modelled code paths feed it
(hex literals and the empty string never reach `BigInt` in those paths).
`none` models the thrown `SyntaxError`. -/
def parseBigInt (s : String) : Option Int :=
  match s.data with
  | [] => none
  | c :: rest =>
    if c = '-' then (parseNatStr rest).map (fun n => -(n : Int))
    else if c = '+' then (parseNatStr rest).map (fun n => (n : Int))
    else (parseNatStr (c :: rest)).map (fun n => (n : Int))

/-- Decimal digit character for a digit value below 10. -/
def digitChar (d : Nat) : Char := Char.ofNat (48 + d)

/-- Decimal digit list of a natural number, with fuel so the recursion is
structural and concrete witnesses evaluate inside the kernel. -/
def natToDigitsAux : Nat → Nat → List Char
  | 0, _ => []
  | fuel + 1, n =>
    if n < 10 then [digitChar n]
    else natToDigitsAux fuel (n / 10) ++ [digitChar (n % 10)]

/-- Decimal rendering of a natural number, as produced by `BigInt.toString()`. -/
def natToDecString (n : Nat) : String := String.mk (natToDigitsAux (n + 1) n)

/-- Decimal rendering of an integer, as produced by `BigInt.toString()`. -/
def intToDecString (q : Int) : String :=
  if q < 0 then "-" ++ natToDecString (-q).toNat else natToDecString q.toNat

/-- Split a character list at its first dot, if any. -/
def splitAtDot : List Char → List Char × Option (List Char)
  | [] => ([], none)
  | c :: t =>
    if c = '.' then ([], some t)
    else
      match splitAtDot t with
      | (a, b) => (c :: a, b)

/-- Model of `new Decimal(string)`: an optional sign followed by decimal
digits with an optional fractional part, valued exactly in `ℚ`.  Exponent,
hex and `Infinity`/`NaN` literals of decimal.js are outside the model (the
modelled code never produces them). -/
def parseDecimal (s : String) : Option ℚ :=
  match s.data with
  | [] => none
  | cs =>
    let signed : Bool × List Char :=
      match cs with
      | '-' :: t => (true, t)
      | '+' :: t => (false, t)
      | t => (false, t)
    let value : Option ℚ :=
      match splitAtDot signed.2 with
      | (ip, none) => (parseNatStr ip).map (fun n => (n : ℚ))
      | (ip, some fp) =>
        match parseNatStr ip, parseNatStr fp with
        | some i, some f => some ((i : ℚ) + (f : ℚ) / (10 : ℚ) ^ fp.length)
        | _, _ => none
    value.map (fun v => if signed.1 then -v else v)

/-- ASCII lowering of a string, modelling JavaScript `toLowerCase()` on the
hex-address strings the code lowers. -/
def toLowerString (s : String) : String := String.mk (s.data.map Char.toLower)

/-- Boolean success test for `Except`. -/
def exceptOk {ε α : Type _} : Except ε α → Bool
  | .ok _ => true
  | .error _ => false

deriving instance DecidableEq for Except

namespace DecimalUtils

/-- Model of `DecimalUtils.calculateEffectiveRate` (`utils/decimal.ts`).
The guard rejects empty amount strings and negative decimal exponents, the
amounts are normalized by their decimal exponents, and a zero normalized
source amount is an error.  Decimal arithmetic is modelled exactly over `ℚ`
(the 20-significant-digit rounding of decimal.js division and the final
`toNumber()` conversion to a binary double are not modelled). -/
def calculateEffectiveRate (fromAmount toAmount : String)
    (fromDecimals toDecimals : Int) : Except String ℚ :=
  if fromAmount = "" ∨ toAmount = "" ∨ fromDecimals < 0 ∨ toDecimals < 0 then
    .error "Invalid input parameters for rate calculation"
  else
    match parseDecimal fromAmount, parseDecimal toAmount with
    | some f, some t =>
      let fromDec : ℚ := f / (10 : ℚ) ^ fromDecimals.toNat
      let toDec : ℚ := t / (10 : ℚ) ^ toDecimals.toNat
      if fromDec = 0 then .error "Decimal calculation failed: From amount cannot be zero"
      else .ok (toDec / fromDec)
    | _, _ => .error "Decimal calculation failed: invalid decimal string"

/-- Model of `DecimalUtils.calculateSlippageBps` (`utils/decimal.ts`):
zero expected rate short-circuits to 0, otherwise the absolute value is
taken of the whole expression `(expected - actual) / expected * 10000`. -/
def calculateSlippageBps (expectedRate actualRate : ℚ) : ℚ :=
  if expectedRate = 0 then 0
  else |(expectedRate - actualRate) / expectedRate * 10000|

end DecimalUtils

/-- Parsing the empty string fails. -/
theorem parseDecimal_empty : parseDecimal "" = none := rfl

/-- A string that parses successfully is nonempty. -/
theorem parseDecimal_ne_empty {s : String} {q : ℚ} (h : parseDecimal s = some q) :
    s ≠ "" := by
  intro hs; subst hs; simp [parseDecimal_empty] at h

/-- C5 (amended): for well-formed decimal inputs with nonnegative decimal
exponents and a nonzero normalized source amount, `calculateEffectiveRate`
returns exactly `(toAmount / 10 ^ toDecimals) / (fromAmount / 10 ^ fromDecimals)`,
and it succeeds precisely when both amount strings are nonempty and parse as
decimals, both decimal exponents are nonnegative, and the source amount is
nonzero.  Negative amount strings are accepted (producing a negative rate),
contrary to the original claim. -/
theorem c5_calculateEffectiveRate_amended (fa ta : String) (fd td : Int) :
    (∀ f t : ℚ, parseDecimal fa = some f → parseDecimal ta = some t →
      0 ≤ fd → 0 ≤ td → f ≠ 0 →
      DecimalUtils.calculateEffectiveRate fa ta fd td =
        .ok ((t / (10 : ℚ) ^ td.toNat) / (f / (10 : ℚ) ^ fd.toNat))) ∧
    (exceptOk (DecimalUtils.calculateEffectiveRate fa ta fd td) = true ↔
      (fa ≠ "" ∧ ta ≠ "" ∧ 0 ≤ fd ∧ 0 ≤ td ∧
        ∃ f t : ℚ, parseDecimal fa = some f ∧ parseDecimal ta = some t ∧ f ≠ 0)) := by
  constructor
  · intro f t hf ht hfd htd hfz
    have hfa : ¬ (fa = "" ∨ ta = "" ∨ fd < 0 ∨ td < 0) := by
      push_neg
      exact ⟨parseDecimal_ne_empty hf, parseDecimal_ne_empty ht, hfd, htd⟩
    have hnz : ¬ (f / (10 : ℚ) ^ fd.toNat = 0) := by
      rw [div_eq_zero_iff]
      push_neg
      exact ⟨hfz, pow_ne_zero _ (by norm_num)⟩
    simp only [DecimalUtils.calculateEffectiveRate, hfa, if_false, hf, ht, hnz]
  · constructor
    · intro hok
      by_cases hguard : fa = "" ∨ ta = "" ∨ fd < 0 ∨ td < 0
      · simp [DecimalUtils.calculateEffectiveRate, hguard, exceptOk] at hok
      · push_neg at hguard
        obtain ⟨h1, h2, h3, h4⟩ := hguard
        have h3' : ¬ fd < 0 := not_lt.mpr h3
        have h4' : ¬ td < 0 := not_lt.mpr h4
        refine ⟨h1, h2, h3, h4, ?_⟩
        rcases hf : parseDecimal fa with _ | f
        · simp [DecimalUtils.calculateEffectiveRate, h1, h2, h3', h4', hf, exceptOk] at hok
        · rcases ht : parseDecimal ta with _ | t
          · simp [DecimalUtils.calculateEffectiveRate, h1, h2, h3', h4', hf, ht,
              exceptOk] at hok
          · refine ⟨f, t, rfl, rfl, ?_⟩
            intro hfz
            simp [DecimalUtils.calculateEffectiveRate, h1, h2, h3', h4', hf, ht, hfz,
              exceptOk] at hok
    · rintro ⟨h1, h2, h3, h4, f, t, hf, ht, hfz⟩
      have hguard : ¬ (fa = "" ∨ ta = "" ∨ fd < 0 ∨ td < 0) := by
        push_neg
        exact ⟨h1, h2, h3, h4⟩
      have hnz : ¬ (f / (10 : ℚ) ^ fd.toNat = 0) := by
        rw [div_eq_zero_iff]
        push_neg
        exact ⟨hfz, pow_ne_zero _ (by norm_num)⟩
      simp [DecimalUtils.calculateEffectiveRate, hguard, hf, ht, hnz, exceptOk]

/-- C5 witness: on the valid input `fromAmount = "2"`, `toAmount = "30"`,
`fromDecimals = 0`, `toDecimals = 1`, the rate is exactly `(30/10)/(2/1) = 3/2`. -/
theorem c5_witness :
    DecimalUtils.calculateEffectiveRate "2" "30" 0 1 = .ok ((3 : ℚ) / 2) := by
  have h := (c5_calculateEffectiveRate_amended "2" "30" 0 1).1 2 30
    (by decide) (by decide) (by decide) (by decide) (by norm_num)
  rw [h]; norm_num

/-- C5 counterexample: the negative source amount `"-1"` is accepted and
yields the negative rate `-1`, while the claim states that any negative
input fails with an explicit error. -/
theorem c5_counterexample :
    DecimalUtils.calculateEffectiveRate "-1" "1" 0 0 = .ok (-1) ∧ (-1 : ℚ) < 0 := by
  refine ⟨?_, by norm_num⟩
  have hg : ¬(("-1" : String) = "" ∨ ("1" : String) = "" ∨ (0 : Int) < 0 ∨ (0 : Int) < 0) := by
    decide
  have h1 : parseDecimal "-1" = some (-1) := by decide
  have h2 : parseDecimal "1" = some 1 := by decide
  simp only [DecimalUtils.calculateEffectiveRate, hg, if_false, h1, h2]
  norm_num

/-- C10 (amended): `calculateSlippageBps` is total; it returns 0 when the
expected rate is 0, and otherwise `|(expected - actual) / expected * 10000|`
(the absolute value of the whole expression), which coincides with the
claimed `|expected - actual| / expected * 10000` whenever `expected > 0`. -/
theorem c10_calculateSlippageBps_amended (e a : ℚ) :
    (e = 0 → DecimalUtils.calculateSlippageBps e a = 0) ∧
    (e ≠ 0 → DecimalUtils.calculateSlippageBps e a = |(e - a) / e * 10000|) ∧
    (0 < e → DecimalUtils.calculateSlippageBps e a = |e - a| / e * 10000) := by
  refine ⟨fun h => by simp [DecimalUtils.calculateSlippageBps, h],
    fun h => by simp [DecimalUtils.calculateSlippageBps, h], fun h => ?_⟩
  have hne : e ≠ 0 := ne_of_gt h
  simp only [DecimalUtils.calculateSlippageBps, hne, if_false]
  rw [abs_mul, abs_div, abs_of_pos h]
  norm_num

/-- C10 witness: at `expected = 2`, `actual = 1` the slippage is
`|2 - 1| / 2 * 10000 = 5000` basis points. -/
theorem c10_witness :
    DecimalUtils.calculateSlippageBps 2 1 = |(2 : ℚ) - 1| / 2 * 10000 :=
  (c10_calculateSlippageBps_amended 2 1).2.2 (by norm_num)

/-- C10 counterexample: at the negative expected rate `-1` (actual 0) the
code returns `10000`, while the claimed formula
`|expected - actual| / expected * 10000` evaluates to `-10000`. -/
theorem c10_counterexample :
    DecimalUtils.calculateSlippageBps (-1) 0 = 10000 ∧
    |(-1 : ℚ) - 0| / (-1) * 10000 = -10000 ∧
    (10000 : ℚ) ≠ -10000 := by
  refine ⟨?_, by norm_num, by norm_num⟩
  norm_num [DecimalUtils.calculateSlippageBps]

/-- One stored entry of the TTL cache (`utils/cache.ts`): the value together
with its absolute expiry instant, set to `now + ttlMs` on write. -/
structure CacheEntry (V : Type) where
  value : V
  expiresAt : Nat
deriving DecidableEq, Repr

/-- Lookup in an insertion-ordered association list (JavaScript `Map.get`). -/
def getAssoc {K V : Type} [DecidableEq K] : List (K × V) → K → Option V
  | [], _ => none
  | (k', v') :: t, k => if k' = k then some v' else getAssoc t k

/-- Update-or-append (JavaScript `Map.set`): an existing key keeps its
insertion-order position, a new key is appended at the end. -/
def setAssoc {K V : Type} [DecidableEq K] : List (K × V) → K → V → List (K × V)
  | [], k, v => [(k, v)]
  | (k', v') :: t, k, v =>
    if k' = k then (k, v) :: t else (k', v') :: setAssoc t k v

/-- Deletion (JavaScript `Map.delete`); a `Map` holds each key once, so
removing the first occurrence removes the key. -/
def eraseAssoc {K V : Type} [DecidableEq K] : List (K × V) → K → List (K × V)
  | [], _ => []
  | (k', v') :: t, k => if k' = k then t else (k', v') :: eraseAssoc t k

/-- Model of `TTLCache` (`utils/cache.ts`): the backing JavaScript `Map` is an
insertion-ordered association list. The constructor defaults `maxSize` to
1000; here both parameters are explicit. -/
structure TTLCache (K V : Type) where
  ttlMs : Nat
  maxSize : Nat
  entries : List (K × CacheEntry V)
deriving DecidableEq, Repr

/-- Fresh cache, as built by the `TTLCache` constructor. -/
def TTLCache.empty (K V : Type) (ttlMs maxSize : Nat) : TTLCache K V :=
  ⟨ttlMs, maxSize, []⟩

/-- Model of `TTLCache.get`: a hit whose entry has passed its expiry instant
(`now > expiresAt`, strictly) is deleted and reported absent; otherwise the
stored value is returned.  The pair carries the possibly-updated cache. -/
def TTLCache.get {K V : Type} [DecidableEq K] (c : TTLCache K V) (key : K)
    (now : Nat) : Option V × TTLCache K V :=
  match getAssoc c.entries key with
  | none => (none, c)
  | some e =>
    if e.expiresAt < now then (none, { c with entries := eraseAssoc c.entries key })
    else (some e.value, c)

/-- Model of `TTLCache.set`: when the map already holds at least `maxSize`
entries the first (oldest-inserted) key is deleted — regardless of whether
`key` itself is already present — and then the entry is written with expiry
`now + ttlMs`. -/
def TTLCache.set {K V : Type} [DecidableEq K] (c : TTLCache K V) (key : K)
    (v : V) (now : Nat) : TTLCache K V :=
  let pruned :=
    if c.maxSize ≤ c.entries.length then
      match c.entries.head? with
      | some (k0, _) => eraseAssoc c.entries k0
      | none => c.entries
    else c.entries
  { c with entries := setAssoc pruned key ⟨v, now + c.ttlMs⟩ }

section AssocLemmas

variable {K V : Type} [DecidableEq K]

theorem getAssoc_setAssoc_self (l : List (K × V)) (k : K) (v : V) :
    getAssoc (setAssoc l k v) k = some v := by
  induction l with
  | nil => simp [setAssoc, getAssoc]
  | cons h t ih =>
    obtain ⟨k', v'⟩ := h
    by_cases hk : k' = k
    · simp [setAssoc, getAssoc, hk]
    · simp [setAssoc, getAssoc, hk, ih]

theorem getAssoc_setAssoc_ne (l : List (K × V)) (k k' : K) (v : V)
    (h : k' ≠ k) : getAssoc (setAssoc l k v) k' = getAssoc l k' := by
  have hne : ¬ k = k' := fun he => h he.symm
  induction l with
  | nil => simp [setAssoc, getAssoc, hne]
  | cons hd t ih =>
    obtain ⟨k₀, v₀⟩ := hd
    by_cases hk : k₀ = k
    · subst hk
      simp [setAssoc, getAssoc, hne]
    · simp [setAssoc, hk, getAssoc, ih]

theorem getAssoc_eraseAssoc_ne (l : List (K × V)) (k k' : K) (h : k' ≠ k) :
    getAssoc (eraseAssoc l k) k' = getAssoc l k' := by
  have hne : ¬ k = k' := fun he => h he.symm
  induction l with
  | nil => simp [eraseAssoc]
  | cons hd t ih =>
    obtain ⟨k₀, v₀⟩ := hd
    by_cases hk : k₀ = k
    · subst hk
      simp [eraseAssoc, getAssoc, hne]
    · simp [eraseAssoc, hk, getAssoc, ih]

theorem getAssoc_eq_none_of_not_mem (l : List (K × V)) (k : K)
    (h : k ∉ l.map Prod.fst) : getAssoc l k = none := by
  induction l with
  | nil => rfl
  | cons hd t ih =>
    obtain ⟨k₀, v₀⟩ := hd
    simp only [List.map_cons, List.mem_cons, not_or] at h
    have hne : ¬ k₀ = k := fun he => h.1 he.symm
    simp [getAssoc, hne, ih h.2]

theorem getAssoc_eraseAssoc_self (l : List (K × V)) (k : K)
    (hnd : (l.map Prod.fst).Nodup) : getAssoc (eraseAssoc l k) k = none := by
  induction l with
  | nil => rfl
  | cons hd t ih =>
    obtain ⟨k₀, v₀⟩ := hd
    simp only [List.map_cons, List.nodup_cons] at hnd
    by_cases hk : k₀ = k
    · subst hk
      simp [eraseAssoc, getAssoc_eq_none_of_not_mem t k₀ hnd.1]
    · simp [eraseAssoc, hk, getAssoc, ih hnd.2]

theorem eraseAssoc_sublist (l : List (K × V)) (k : K) :
    (eraseAssoc l k).Sublist l := by
  induction l with
  | nil => simp [eraseAssoc]
  | cons hd t ih =>
    obtain ⟨k₀, v₀⟩ := hd
    by_cases hk : k₀ = k
    · simp [eraseAssoc, hk]
    · simpa [eraseAssoc, hk] using ih.cons₂ (k₀, v₀)

theorem nodup_keys_eraseAssoc (l : List (K × V)) (k : K)
    (hnd : (l.map Prod.fst).Nodup) : ((eraseAssoc l k).map Prod.fst).Nodup :=
  hnd.sublist ((eraseAssoc_sublist l k).map Prod.fst)

theorem mem_keys_setAssoc (l : List (K × V)) (k a : K) (v : V) :
    a ∈ (setAssoc l k v).map Prod.fst ↔ a ∈ l.map Prod.fst ∨ a = k := by
  induction l with
  | nil => simp [setAssoc]
  | cons hd t ih =>
    obtain ⟨k₀, v₀⟩ := hd
    by_cases hk : k₀ = k
    · subst hk
      simp [setAssoc]
      tauto
    · simp [setAssoc, hk, ih]
      tauto

theorem nodup_keys_setAssoc (l : List (K × V)) (k : K) (v : V)
    (hnd : (l.map Prod.fst).Nodup) : ((setAssoc l k v).map Prod.fst).Nodup := by
  induction l with
  | nil => simp [setAssoc]
  | cons hd t ih =>
    obtain ⟨k₀, v₀⟩ := hd
    simp only [List.map_cons, List.nodup_cons] at hnd
    by_cases hk : k₀ = k
    · subst hk
      have hs : setAssoc ((k₀, v₀) :: t) k₀ v = (k₀, v) :: t := by simp [setAssoc]
      rw [hs]
      simp only [List.map_cons, List.nodup_cons]
      exact hnd
    · simp only [setAssoc, if_neg hk, List.map_cons, List.nodup_cons]
      refine ⟨?_, ih hnd.2⟩
      rw [mem_keys_setAssoc]
      rintro (h | h)
      · exact hnd.1 h
      · exact hk h

theorem length_setAssoc_le (l : List (K × V)) (k : K) (v : V) :
    (setAssoc l k v).length ≤ l.length + 1 := by
  induction l with
  | nil => simp [setAssoc]
  | cons hd t ih =>
    obtain ⟨k₀, v₀⟩ := hd
    by_cases hk : k₀ = k
    · simp [setAssoc, hk]
    · simp only [setAssoc, if_neg hk, List.length_cons]
      omega

end AssocLemmas

/-- C6: for a key written at time `t`, `get` returns the stored value at
every instant up to and including the absolute expiry timestamp `t + ttlMs`,
returns absent strictly after it, and a `get` that finds any entry expired
deletes that entry from the cache as a side effect.  The key-uniqueness
hypothesis is the `Map` invariant of the backing store. -/
theorem c6_ttlcache_expiry {K V : Type} [DecidableEq K] (c : TTLCache K V)
    (key : K) (v : V) (t now : Nat)
    (hnd : (c.entries.map Prod.fst).Nodup) :
    (now ≤ t + c.ttlMs → (((c.set key v t).get key now).1 = some v)) ∧
    (t + c.ttlMs < now →
      ((c.set key v t).get key now).1 = none ∧
      getAssoc (((c.set key v t).get key now).2.entries) key = none) ∧
    (∀ e, getAssoc c.entries key = some e → e.expiresAt < now →
      (c.get key now).1 = none ∧
      getAssoc ((c.get key now).2.entries) key = none) := by
  have hset : (c.set key v t).entries =
      setAssoc (if c.maxSize ≤ c.entries.length then
        (match c.entries.head? with
          | some (k0, _) => eraseAssoc c.entries k0
          | none => c.entries)
        else c.entries) key ⟨v, t + c.ttlMs⟩ := rfl
  have hget : getAssoc (c.set key v t).entries key = some ⟨v, t + c.ttlMs⟩ := by
    rw [hset]; exact getAssoc_setAssoc_self _ _ _
  have hndset : ((c.set key v t).entries.map Prod.fst).Nodup := by
    rw [hset]
    apply nodup_keys_setAssoc
    split
    · rcases hh : c.entries.head? with _ | ⟨k0, e0⟩
      · simpa [hh] using hnd
      · simpa [hh] using nodup_keys_eraseAssoc _ _ hnd
    · exact hnd
  refine ⟨?_, ?_, ?_⟩
  · intro hle
    have : ¬ ((⟨v, t + c.ttlMs⟩ : CacheEntry V).expiresAt < now) := by
      simpa using not_lt.mpr hle
    simp [TTLCache.get, hget, this]
  · intro hlt
    have : ((⟨v, t + c.ttlMs⟩ : CacheEntry V).expiresAt < now) := hlt
    refine ⟨by simp [TTLCache.get, hget, this], ?_⟩
    simp only [TTLCache.get, hget, this, if_pos]
    exact getAssoc_eraseAssoc_self _ _ hndset
  · intro e he hexp
    refine ⟨by simp [TTLCache.get, he, hexp], ?_⟩
    simp only [TTLCache.get, he, hexp, if_pos]
    exact getAssoc_eraseAssoc_self _ _ hnd

/-- C6 witness: in a cache with `ttlMs = 100`, a value written at time 0 is
still returned at time 100 (the expiry instant), absent and deleted at 101. -/
theorem c6_witness :
    ((((TTLCache.empty Nat Nat 100 10).set 1 5 0).get 1 100).1 = some 5) ∧
    ((((TTLCache.empty Nat Nat 100 10).set 1 5 0).get 1 101).1 = none) ∧
    getAssoc ((((TTLCache.empty Nat Nat 100 10).set 1 5 0).get 1 101).2.entries) 1 = none := by
  refine ⟨(c6_ttlcache_expiry _ 1 5 0 100 (by decide)).1 (by decide), ?_, ?_⟩
  · exact ((c6_ttlcache_expiry _ 1 5 0 101 (by decide)).2.1 (by decide)).1
  · exact ((c6_ttlcache_expiry _ 1 5 0 101 (by decide)).2.1 (by decide)).2

/-- C7 (amended): `set` evicts the single oldest-inserted entry whenever the
cache already holds at least `maxSize` entries — even when the written key is
already present, so an overwrite at full capacity evicts the oldest other
entry; below capacity nothing is evicted; and for `maxSize ≥ 1` the size
never exceeds `maxSize`. -/
theorem c7_ttlcache_set_amended {K V : Type} [DecidableEq K]
    (c : TTLCache K V) (key : K) (v : V) (t : Nat) :
    (c.entries.length < c.maxSize →
      (c.set key v t).entries = setAssoc c.entries key ⟨v, t + c.ttlMs⟩ ∧
      ∀ k', k' ≠ key →
        getAssoc (c.set key v t).entries k' = getAssoc c.entries k') ∧
    (∀ k0 e0 rest, c.entries = (k0, e0) :: rest → c.maxSize ≤ c.entries.length →
      (c.set key v t).entries = setAssoc rest key ⟨v, t + c.ttlMs⟩ ∧
      ((c.entries.map Prod.fst).Nodup → k0 ≠ key →
        getAssoc (c.set key v t).entries k0 = none)) ∧
    (1 ≤ c.maxSize → c.entries.length ≤ c.maxSize →
      (c.set key v t).entries.length ≤ c.maxSize) := by
  refine ⟨?_, ?_, ?_⟩
  · intro hlt
    have hcond : ¬ c.maxSize ≤ c.entries.length := not_le.mpr hlt
    constructor
    · simp [TTLCache.set, hcond]
    · intro k' hk'
      simp only [TTLCache.set, hcond, if_false]
      exact getAssoc_setAssoc_ne _ _ _ _ hk'
  · intro k0 e0 rest hent hge
    have hlen' : c.maxSize ≤ rest.length + 1 := by
      have h := hge; rw [hent] at h; simpa using h
    have hset : (c.set key v t).entries = setAssoc rest key ⟨v, t + c.ttlMs⟩ := by
      simp [TTLCache.set, hent, hlen', eraseAssoc]
    refine ⟨hset, ?_⟩
    intro hnd hne
    rw [hset, getAssoc_setAssoc_ne _ _ _ _ hne]
    apply getAssoc_eq_none_of_not_mem
    rw [hent] at hnd
    simp only [List.map_cons, List.nodup_cons] at hnd
    exact hnd.1
  · intro hpos hle
    rcases lt_or_ge c.entries.length c.maxSize with hlt | hge
    · have hcond : ¬ c.maxSize ≤ c.entries.length := not_le.mpr hlt
      simp only [TTLCache.set, hcond, if_false]
      calc (setAssoc c.entries key ⟨v, t + c.ttlMs⟩).length
          ≤ c.entries.length + 1 := length_setAssoc_le _ _ _
        _ ≤ c.maxSize := hlt
    · have hlen : 1 ≤ c.entries.length := le_trans hpos hge
      rcases hent : c.entries with _ | ⟨⟨k0, e0⟩, rest⟩
      · rw [hent] at hlen; simp at hlen
      · have hlen' : c.maxSize ≤ rest.length + 1 := by
          have h := hge; rw [hent] at h; simpa using h
        have hset : (c.set key v t).entries = setAssoc rest key ⟨v, t + c.ttlMs⟩ := by
          simp [TTLCache.set, hent, hlen', eraseAssoc]
        rw [hset]
        have hrest : rest.length + 1 = c.entries.length := by
          rw [hent]; simp
        calc (setAssoc rest key ⟨v, t + c.ttlMs⟩).length
            ≤ rest.length + 1 := length_setAssoc_le _ _ _
          _ = c.entries.length := hrest
          _ ≤ c.maxSize := hle

/-- C7 witness: below capacity a `set` evicts nothing (the other key is
still readable), and a full-capacity overwrite keeps the size at `maxSize`. -/
theorem c7_witness :
    getAssoc ((((TTLCache.empty Nat Nat 1000 3).set 1 5 0).set 2 6 0).entries) 1 =
      some ⟨5, 1000⟩ ∧
    ((((TTLCache.empty Nat Nat 1000 2).set 1 5 0).set 2 6 0).set 2 7 0).entries.length ≤ 2 := by
  constructor
  · have h := (c7_ttlcache_set_amended ((TTLCache.empty Nat Nat 1000 3).set 1 5 0)
      2 6 0).1 (by decide)
    rw [h.2 1 (by decide)]
    decide
  · exact (c7_ttlcache_set_amended (((TTLCache.empty Nat Nat 1000 2).set 1 5 0).set 2 6 0)
      2 7 0).2.2 (by decide) (by decide)

/-- C7 counterexample: with `maxSize = 2`, writing keys 1 then 2 fills the
cache; overwriting key 2 then evicts key 1 (the oldest entry) even though
the `set` only overwrites an existing key, which the claim says evicts
nothing.  The overwritten cache retains a single entry. -/
theorem c7_counterexample :
    getAssoc (((((TTLCache.empty Nat Nat 1000 2).set 1 10 0).set 2 20 0).set 2 30 0).entries) 1 =
      none ∧
    getAssoc ((((TTLCache.empty Nat Nat 1000 2).set 1 10 0).set 2 20 0).entries) 1 =
      some ⟨10, 1000⟩ ∧
    ((((TTLCache.empty Nat Nat 1000 2).set 1 10 0).set 2 20 0).set 2 30 0).entries.length = 1 := by
  refine ⟨by decide, by decide, by decide⟩

/-- States of the `CircuitBreaker` (`utils/cache.ts`); `opened` models the
source's `'OPEN'` (Lean reserves the word). -/
inductive BreakerState where
  | closed
  | opened
  | halfOpen
deriving DecidableEq, Repr

/-- Model of the `CircuitBreaker` object: the three constructor parameters
(`successThreshold` defaults to 2 in the source) together with the four
mutable fields. -/
structure CircuitBreaker where
  failureThreshold : Nat
  cooldownMs : Nat
  successThreshold : Nat
  state : BreakerState
  failureCount : Nat
  successCount : Nat
  nextAttemptTime : Nat
deriving DecidableEq, Repr

/-- Freshly constructed breaker: CLOSED with zeroed counters. -/
def CircuitBreaker.init (failureThreshold cooldownMs successThreshold : Nat) :
    CircuitBreaker :=
  ⟨failureThreshold, cooldownMs, successThreshold, .closed, 0, 0, 0⟩

/-- Observable outcome of one `execute` call: the fail-fast breaker-open
error, or the supplied operation's own success or failure. -/
inductive ExecOutcome where
  | breakerOpenError
  | opSucceeded
  | opFailed
deriving DecidableEq, Repr

/-- Model of the private `onSuccess`: the failure counter is cleared; in
HALF_OPEN the success counter is incremented and reaching
`successThreshold` closes the breaker. -/
def CircuitBreaker.onSuccess (b : CircuitBreaker) : CircuitBreaker :=
  let b1 := { b with failureCount := 0 }
  match b1.state with
  | .halfOpen =>
    let sc := b1.successCount + 1
    if b1.successThreshold ≤ sc then { b1 with state := .closed, successCount := 0 }
    else { b1 with successCount := sc }
  | _ => b1

/-- Model of the private `onFailure` at settle instant `now`: the failure
counter is incremented (never reset) and the success counter cleared; in
HALF_OPEN, or once `failureCount` reaches `failureThreshold`, the breaker
opens and arms `nextAttemptTime = now + cooldownMs`. -/
def CircuitBreaker.onFailure (b : CircuitBreaker) (now : Nat) : CircuitBreaker :=
  let fc := b.failureCount + 1
  let b1 := { b with failureCount := fc, successCount := 0 }
  if b1.state = .halfOpen ∨ b1.failureThreshold ≤ fc then
    { b1 with state := .opened, nextAttemptTime := now + b1.cooldownMs }
  else b1

/-- Model of `CircuitBreaker.execute`: `now` is `Date.now()` at entry,
`settleTime` is `Date.now()` when the awaited operation settles, and
`opSucceeds` tells whether the supplied operation would succeed — it is not
consulted on the fail-fast path, mirroring that the operation is not
invoked there.  An OPEN breaker past `nextAttemptTime` moves to HALF_OPEN
with its success counter reset before the call proceeds. -/
def CircuitBreaker.execute (b : CircuitBreaker) (now settleTime : Nat)
    (opSucceeds : Bool) : ExecOutcome × CircuitBreaker :=
  if b.state = .opened ∧ now < b.nextAttemptTime then (.breakerOpenError, b)
  else
    let b1 :=
      if b.state = .opened then { b with state := .halfOpen, successCount := 0 } else b
    if opSucceeds then (.opSucceeded, b1.onSuccess)
    else (.opFailed, b1.onFailure settleTime)

/-- Fold a sequence of `execute` calls, each given as
`(now, settleTime, opSucceeds)`, over the breaker state. -/
def CircuitBreaker.runCalls (b : CircuitBreaker) :
    List (Nat × Nat × Bool) → CircuitBreaker
  | [] => b
  | (now, st, oc) :: rest => CircuitBreaker.runCalls (b.execute now st oc).2 rest

/-- One failed call on a CLOSED breaker: below threshold it stays CLOSED
with the counter bumped; at threshold it opens, armed from the settle time. -/
theorem execute_closed_failure (b : CircuitBreaker) (now st : Nat)
    (hclosed : b.state = .closed) :
    (b.execute now st false).2 =
      (if b.failureThreshold ≤ b.failureCount + 1 then
        { b with state := .opened, failureCount := b.failureCount + 1,
                 successCount := 0, nextAttemptTime := st + b.cooldownMs }
      else
        { b with failureCount := b.failureCount + 1, successCount := 0 }) := by
  by_cases hth : b.failureThreshold ≤ b.failureCount + 1 <;>
    simp [CircuitBreaker.execute, CircuitBreaker.onFailure, hclosed, hth]

/-- Consecutive failures on a CLOSED breaker open it exactly when the
running failure count reaches the threshold, arming the cooldown from the
settle time of the last failure. -/
theorem runCalls_failures_open :
    ∀ (ts : List (Nat × Nat)) (b : CircuitBreaker),
      b.state = .closed →
      b.failureCount + ts.length = b.failureThreshold →
      ∀ n s, ts.getLast? = some (n, s) →
      (b.runCalls (ts.map fun p => (p.1, p.2, false))).state = .opened ∧
      (b.runCalls (ts.map fun p => (p.1, p.2, false))).nextAttemptTime =
        s + b.cooldownMs := by
  intro ts
  induction ts with
  | nil => intro b _ _ n s hlast; simp at hlast
  | cons hd rest ih =>
    obtain ⟨n₀, s₀⟩ := hd
    intro b hclosed hcount n s hlast
    have hstep := execute_closed_failure b n₀ s₀ hclosed
    rcases rest with _ | ⟨r₁, rs⟩
    · have hth : b.failureThreshold ≤ b.failureCount + 1 := by
        simp at hcount; omega
      simp only [List.getLast?_singleton, Option.some.injEq, Prod.mk.injEq] at hlast
      obtain ⟨hn, hs⟩ := hlast
      subst hs
      simp [CircuitBreaker.runCalls, hstep, hth]
    · have hth : ¬ b.failureThreshold ≤ b.failureCount + 1 := by
        simp at hcount; omega
      simp only [List.map_cons, CircuitBreaker.runCalls, hstep, if_neg hth]
      have hlast' : (r₁ :: rs).getLast? = some (n, s) := by
        rw [← hlast]; rfl
      have := ih { b with failureCount := b.failureCount + 1, successCount := 0 }
        (by simpa using hclosed) (by simp at hcount ⊢; omega) n s hlast'
      simpa using this

/-- Consecutive successes on a HALF_OPEN breaker close it exactly when the
running success count reaches the threshold, clearing the counter. -/
theorem runCalls_successes_close :
    ∀ (ts : List (Nat × Nat)) (b : CircuitBreaker),
      b.state = .halfOpen →
      b.successCount + ts.length = b.successThreshold →
      ts ≠ [] →
      (b.runCalls (ts.map fun p => (p.1, p.2, true))).state = .closed ∧
      (b.runCalls (ts.map fun p => (p.1, p.2, true))).successCount = 0 := by
  intro ts
  induction ts with
  | nil => intro b _ _ hne; exact absurd rfl hne
  | cons hd rest ih =>
    obtain ⟨n₀, s₀⟩ := hd
    intro b hhalf hcount _
    have hstep : (b.execute n₀ s₀ true).2 = CircuitBreaker.onSuccess b := by
      simp [CircuitBreaker.execute, hhalf]
    rcases rest with _ | ⟨r₁, rs⟩
    · have hth : b.successThreshold ≤ b.successCount + 1 := by
        simp at hcount; omega
      simp [CircuitBreaker.runCalls, hstep, CircuitBreaker.onSuccess, hhalf, hth]
    · have hth : ¬ b.successThreshold ≤ b.successCount + 1 := by
        simp at hcount; omega
      have hsucc : CircuitBreaker.onSuccess b =
          { b with failureCount := 0, successCount := b.successCount + 1 } := by
        simp [CircuitBreaker.onSuccess, hhalf, hth]
      simp only [List.map_cons, CircuitBreaker.runCalls, hstep, hsucc]
      exact ih _ (by simpa using hhalf) (by simp at hcount ⊢; omega) (by simp)

/-- C3: from a fresh CLOSED breaker, `failureThreshold` consecutive failures
leave it OPEN with `nextAttemptTime` armed to the settle instant of the
opening failure plus `cooldownMs`; every call on an OPEN breaker strictly
before `nextAttemptTime` returns the breaker-open error with the state
untouched and without consulting the operation (the conclusion holds for
both values of `opSucceeds`); and a success while CLOSED resets the failure
counter to 0 (the breaker staying CLOSED). -/
theorem c3_circuit_breaker :
    (∀ (b : CircuitBreaker) (ts : List (Nat × Nat)) (n s : Nat),
      b.state = .closed → b.failureCount = 0 →
      ts.length = b.failureThreshold → ts.getLast? = some (n, s) →
      (b.runCalls (ts.map fun p => (p.1, p.2, false))).state = .opened ∧
      (b.runCalls (ts.map fun p => (p.1, p.2, false))).nextAttemptTime =
        s + b.cooldownMs) ∧
    (∀ (b : CircuitBreaker) (now st : Nat) (oc : Bool),
      b.state = .opened → now < b.nextAttemptTime →
      b.execute now st oc = (.breakerOpenError, b)) ∧
    (∀ (b : CircuitBreaker) (now st : Nat),
      b.state = .closed →
      (b.execute now st true).2.failureCount = 0 ∧
      (b.execute now st true).2.state = .closed) := by
  refine ⟨?_, ?_, ?_⟩
  · intro b ts n s hclosed hzero hlen hlast
    exact runCalls_failures_open ts b hclosed (by omega) n s hlast
  · intro b now st oc hopen hlt
    simp [CircuitBreaker.execute, hopen, hlt]
  · intro b now st hclosed
    have hstep : (b.execute now st true).2 = CircuitBreaker.onSuccess b := by
      simp [CircuitBreaker.execute, hclosed]
    rw [hstep]
    simp [CircuitBreaker.onSuccess, hclosed]

/-- C3 witness: with `failureThreshold = 2`, `cooldownMs = 50`, two failures
settling at times 0 and 5 open the breaker with `nextAttemptTime = 55`; an
OPEN breaker at time 99 with `nextAttemptTime = 100` fails fast unchanged;
and a success on a CLOSED breaker with a pending failure zeroes the count. -/
theorem c3_witness :
    (((CircuitBreaker.init 2 50 2).runCalls
        [(0, 0, false), (5, 5, false)]).state = .opened ∧
      ((CircuitBreaker.init 2 50 2).runCalls
        [(0, 0, false), (5, 5, false)]).nextAttemptTime = 5 + 50) ∧
    ((⟨2, 50, 2, .opened, 2, 0, 100⟩ : CircuitBreaker).execute 99 99 true =
      (.breakerOpenError, ⟨2, 50, 2, .opened, 2, 0, 100⟩)) ∧
    ((⟨2, 50, 2, .closed, 1, 0, 0⟩ : CircuitBreaker).execute 7 7 true).2.failureCount = 0 := by
  refine ⟨?_, ?_, ?_⟩
  · exact c3_circuit_breaker.1 (CircuitBreaker.init 2 50 2) [(0, 0), (5, 5)] 5 5
      rfl rfl rfl rfl
  · exact c3_circuit_breaker.2.1 _ 99 99 true rfl (by decide)
  · exact (c3_circuit_breaker.2.2 _ 7 7 rfl).1

/-- C4 (amended): a call on an OPEN breaker at or after `nextAttemptTime` is
let through (never the breaker-open error); if it succeeds, the breaker has
passed through HALF_OPEN with the success counter reset, ending CLOSED when
one success meets `successThreshold` and HALF_OPEN with counter 1 otherwise;
`successThreshold` consecutive successes from HALF_OPEN restore CLOSED; and
a single HALF_OPEN failure re-opens the breaker, re-arms
`nextAttemptTime = settleTime + cooldownMs` and resets the success counter —
but the failure counter is incremented, not reset. -/
theorem c4_circuit_breaker_amended :
    (∀ (b : CircuitBreaker) (now st : Nat) (oc : Bool),
      b.state = .opened → b.nextAttemptTime ≤ now →
      (b.execute now st oc).1 ≠ .breakerOpenError) ∧
    (∀ (b : CircuitBreaker) (now st : Nat),
      b.state = .opened → b.nextAttemptTime ≤ now →
      (b.execute now st true).2.state =
        (if b.successThreshold ≤ 1 then .closed else .halfOpen) ∧
      (b.execute now st true).2.successCount =
        (if b.successThreshold ≤ 1 then 0 else 1)) ∧
    (∀ (b : CircuitBreaker) (ts : List (Nat × Nat)),
      b.state = .halfOpen → b.successCount = 0 →
      ts.length = b.successThreshold → 1 ≤ b.successThreshold →
      (b.runCalls (ts.map fun p => (p.1, p.2, true))).state = .closed) ∧
    (∀ (b : CircuitBreaker) (now st : Nat),
      b.state = .halfOpen →
      (b.execute now st false).2.state = .opened ∧
      (b.execute now st false).2.nextAttemptTime = st + b.cooldownMs ∧
      (b.execute now st false).2.successCount = 0 ∧
      (b.execute now st false).2.failureCount = b.failureCount + 1) := by
  refine ⟨?_, ?_, ?_, ?_⟩
  · intro b now st oc hopen hle
    have hff : ¬ (b.state = .opened ∧ now < b.nextAttemptTime) := by
      rintro ⟨_, hlt⟩; omega
    cases oc <;> simp [CircuitBreaker.execute, hff]
  · intro b now st hopen hle
    have hlt : ¬ now < b.nextAttemptTime := not_lt.mpr hle
    have hstep : (b.execute now st true).2 =
        CircuitBreaker.onSuccess { b with state := .halfOpen, successCount := 0 } := by
      simp [CircuitBreaker.execute, hopen, hlt]
    rw [hstep]
    by_cases hth : b.successThreshold ≤ 1 <;>
      simp [CircuitBreaker.onSuccess, hth]
  · intro b ts hhalf hzero hlen hpos
    have hne : ts ≠ [] := by
      intro h; rw [h] at hlen; simp at hlen; omega
    exact (runCalls_successes_close ts b hhalf (by omega) hne).1
  · intro b now st hhalf
    have hff : ¬ (b.state = .opened ∧ now < b.nextAttemptTime) := by
      rintro ⟨h, _⟩; rw [hhalf] at h; exact absurd h (by simp)
    have hstep : (b.execute now st false).2 = CircuitBreaker.onFailure b st := by
      simp [CircuitBreaker.execute, hff, hhalf]
    rw [hstep]
    simp [CircuitBreaker.onFailure, hhalf]

/-- C4 witness: an OPEN breaker (`nextAttemptTime = 100`) called at 100 with
`successThreshold = 2` is let through, ends HALF_OPEN with success counter
1; two successes from HALF_OPEN close it; one HALF_OPEN failure settling at
7 re-opens with `nextAttemptTime = 7 + 50`. -/
theorem c4_witness :
    ((⟨2, 50, 2, .opened, 2, 5, 100⟩ : CircuitBreaker).execute 100 100 true).1 ≠
      .breakerOpenError ∧
    ((⟨2, 50, 2, .opened, 2, 5, 100⟩ : CircuitBreaker).execute 100 100 true).2.state =
      .halfOpen ∧
    (((⟨2, 50, 2, .halfOpen, 0, 0, 100⟩ : CircuitBreaker).runCalls
        [(0, 0, true), (1, 1, true)]).state = .closed) ∧
    ((⟨2, 50, 2, .halfOpen, 3, 1, 100⟩ : CircuitBreaker).execute 7 7 false).2.nextAttemptTime =
      7 + 50 := by
  refine ⟨?_, ?_, ?_, ?_⟩
  · exact c4_circuit_breaker_amended.1 _ 100 100 true rfl (by decide)
  · have h := (c4_circuit_breaker_amended.2.1
      (⟨2, 50, 2, .opened, 2, 5, 100⟩ : CircuitBreaker) 100 100 rfl (by decide)).1
    simpa using h
  · exact c4_circuit_breaker_amended.2.2.1 _ [(0, 0), (1, 1)] rfl rfl rfl (by decide)
  · exact (c4_circuit_breaker_amended.2.2.2 _ 7 7 rfl).2.1

/-- C4 counterexample: from a fresh breaker with `failureThreshold = 2` and
`cooldownMs = 100`, failures at times 0 and 1 open it (`nextAttemptTime
= 101`); the failed probe at time 200 passes through HALF_OPEN and re-opens
the breaker with `failureCount = 3` — the claim's "resets the counters" is
false for the failure counter. -/
theorem c4_counterexample :
    ((CircuitBreaker.init 2 100 2).runCalls
      [(0, 0, false), (1, 1, false), (200, 200, false)]).failureCount = 3 ∧
    ((CircuitBreaker.init 2 100 2).runCalls
      [(0, 0, false), (1, 1, false), (200, 200, false)]).state = .opened ∧
    (3 : Nat) ≠ 0 := by
  refine ⟨by decide, by decide, by decide⟩

/-- Outcome of one HTTP attempt inside `HttpUtils.fetchWithRetry`
(`utils/http.ts`): a parsed success, a non-2xx status (with the parsed
`Retry-After` header value in seconds, which the source reads only on 429),
a response whose content type is not JSON, a body that fails to parse, or a
thrown network/timeout failure. -/
inductive FetchOutcome (T : Type) where
  | success (v : T)
  | httpError (status : Nat) (retryAfter : Option Nat)
  | contentTypeNotJson
  | jsonParseError
  | networkFailure
deriving DecidableEq, Repr

/-- Whether the attempt produced a parsed response. -/
def FetchOutcome.isSuccess {T : Type} : FetchOutcome T → Bool
  | .success _ => true
  | _ => false

/-- Model of the private `calculateBackoffDelay`: exponential in the attempt
index (exponent capped at 10) plus jitter (`Math.random() * 0.1 *
exponentialDelay`, with `Math.random() * 0.1` supplied by the `jitterFn`
oracle), the sum capped at 30000 ms; a negative base delay falls back to
1000 (the `typeof` checks of the source are unrepresentable here). -/
def calculateBackoffDelay (jitterFn : Nat → ℚ) (attempt : Nat) (baseDelay : ℚ) : ℚ :=
  if baseDelay < 0 then 1000
  else
    let exponentialDelay := baseDelay * 2 ^ (min attempt 10)
    min (exponentialDelay + jitterFn attempt * exponentialDelay) 30000

/-- Sleep duration charged before retrying a failed attempt: a 429 with a
parsed `Retry-After` header sleeps that many seconds, every other failure
sleeps the computed backoff. -/
def retryDelay {T : Type} (jitterFn : Nat → ℚ) (baseDelay : ℚ) (attempt : Nat) :
    FetchOutcome T → ℚ
  | .httpError 429 (some ra) => (ra : ℚ) * 1000
  | _ => calculateBackoffDelay jitterFn attempt baseDelay

/-- Observable behaviour of one `fetchWithRetry` call: its result, how many
attempts were started, and the backoff sleeps performed between attempts. -/
structure RetryResult (T : Type) where
  result : Except String T
  attemptsMade : Nat
  sleeps : List ℚ
deriving DecidableEq, Repr

/-- Terminal error message of `fetchWithRetry`, reporting `maxRetries + 1`
attempts (the last underlying error text is abstracted away). -/
def retryFailureMsg (maxRetries : Nat) : String :=
  "Request failed after " ++ toString (maxRetries + 1) ++ " attempts"

/-- The retry loop of `fetchWithRetry`.  Every failed attempt — any non-2xx
status including 4xx other than 429, a non-JSON content type, a JSON parse
error, or a network failure — is retried while budget remains; the source's
`attempt < maxRetries` test appears here as `remaining ≠ 0`, with
`remaining = maxRetries - attempt` maintained by the caller. -/
def fetchLoop {T : Type} (oracle : Nat → FetchOutcome T) (maxRetries : Nat)
    (baseDelay : ℚ) (jitterFn : Nat → ℚ) :
    Nat → Nat → List ℚ → RetryResult T
  | attempt, remaining, acc =>
    match oracle attempt with
    | .success v => ⟨.ok v, attempt + 1, acc⟩
    | o =>
      match remaining with
      | 0 => ⟨.error (retryFailureMsg maxRetries), attempt + 1, acc⟩
      | rem + 1 =>
        fetchLoop oracle maxRetries baseDelay jitterFn (attempt + 1) rem
          (acc ++ [retryDelay jitterFn baseDelay attempt o])

/-- Model of `HttpUtils.fetchWithRetry` (source defaults: `maxRetries = 3`,
`baseDelay = 1000`).  URL string validation is abstracted into the
`urlValid` flag; `maxRetries` is a `Nat`, so only the negative-`baseDelay`
half of the entry guard is representable.  The `oracle` gives the outcome
of each attempt in order. -/
def fetchWithRetry {T : Type} (oracle : Nat → FetchOutcome T) (urlValid : Bool)
    (maxRetries : Nat) (baseDelay : ℚ) (jitterFn : Nat → ℚ) : RetryResult T :=
  if ¬ urlValid then ⟨.error "Invalid URL format", 0, []⟩
  else if baseDelay < 0 then
    ⟨.error "maxRetries and baseDelay must be non-negative", 0, []⟩
  else fetchLoop oracle maxRetries baseDelay jitterFn 0 maxRetries []

/-- When every attempt fails, the loop runs one attempt per unit of budget,
sleeping after each failure except the last, and ends with the terminal
error. -/
theorem fetchLoop_allFail {T : Type} (oracle : Nat → FetchOutcome T)
    (maxRetries : Nat) (baseDelay : ℚ) (jitterFn : Nat → ℚ)
    (h : ∀ j, (oracle j).isSuccess = false) :
    ∀ (rem attempt : Nat) (acc : List ℚ),
      ∃ ds : List ℚ, ds.length = rem ∧
        fetchLoop oracle maxRetries baseDelay jitterFn attempt rem acc =
          ⟨.error (retryFailureMsg maxRetries), attempt + rem + 1, acc ++ ds⟩ := by
  intro rem
  induction rem with
  | zero =>
    intro attempt acc
    refine ⟨[], rfl, ?_⟩
    rcases ho : oracle attempt with v | ⟨s, ra⟩ | _ | _ | _
    · have := h attempt; rw [ho] at this; simp [FetchOutcome.isSuccess] at this
    all_goals simp [fetchLoop, ho]
  | succ rem ih =>
    intro attempt acc
    rcases ho : oracle attempt with v | ⟨s, ra⟩ | _ | _ | _
    · have := h attempt; rw [ho] at this; simp [FetchOutcome.isSuccess] at this
    all_goals
      obtain ⟨ds, hlen, heq⟩ := ih (attempt + 1)
        (acc ++ [retryDelay jitterFn baseDelay attempt (oracle attempt)])
    all_goals
      refine ⟨retryDelay jitterFn baseDelay attempt (oracle attempt) :: ds,
        by simp [hlen], ?_⟩
    all_goals rw [ho] at heq
    all_goals simp only [fetchLoop, ho, heq]
    all_goals congr 1
    all_goals first | rfl | omega | simp

/-- When the first success is at attempt `i` within budget, the loop stops
there: `i + 1` attempts, one sleep per preceding failure. -/
theorem fetchLoop_firstSuccess {T : Type} (oracle : Nat → FetchOutcome T)
    (maxRetries : Nat) (baseDelay : ℚ) (jitterFn : Nat → ℚ) :
    ∀ (i rem attempt : Nat) (acc : List ℚ) (v : T),
      (∀ j, j < i → (oracle (attempt + j)).isSuccess = false) →
      oracle (attempt + i) = .success v →
      i ≤ rem →
      ∃ ds : List ℚ, ds.length = i ∧
        fetchLoop oracle maxRetries baseDelay jitterFn attempt rem acc =
          ⟨.ok v, attempt + i + 1, acc ++ ds⟩ := by
  intro i
  induction i with
  | zero =>
    intro rem attempt acc v _ hs _
    refine ⟨[], rfl, ?_⟩
    rw [fetchLoop]
    simp only [Nat.add_zero] at hs
    simp [hs]
  | succ i ih =>
    intro rem attempt acc v hfail hs hle
    rcases rem with _ | rem
    · omega
    rcases ho : oracle attempt with w | ⟨s, ra⟩ | _ | _ | _
    · have := hfail 0 (by omega); rw [Nat.add_zero, ho] at this
      simp [FetchOutcome.isSuccess] at this
    all_goals
      obtain ⟨ds, hlen, heq⟩ := ih rem (attempt + 1)
        (acc ++ [retryDelay jitterFn baseDelay attempt (oracle attempt)]) v
        (fun j hj => by
          have := hfail (j + 1) (by omega)
          simpa [Nat.add_assoc, Nat.add_comm 1 j] using this)
        (by
          have he : attempt + 1 + i = attempt + (i + 1) := by omega
          rw [he]; exact hs)
        (by omega)
    all_goals
      refine ⟨retryDelay jitterFn baseDelay attempt (oracle attempt) :: ds,
        by simp [hlen], ?_⟩
    all_goals rw [ho] at heq
    all_goals simp only [fetchLoop, ho, heq]
    all_goals congr 1
    all_goals first | rfl | omega | simp

/-- C2 (amended): `fetchWithRetry` retries every failed attempt while budget
remains — 4xx statuses other than 429, non-JSON content types and malformed
bodies included, each charged a backoff sleep — and fails with the explicit
error reporting `maxRetries + 1` attempts only after the whole budget is
exhausted; a first success at attempt `i ≤ maxRetries` stops the loop after
exactly `i + 1` attempts and `i` sleeps.  Only the pre-flight validation
(invalid URL, negative `baseDelay`) fails without any attempt. -/
theorem c2_fetchWithRetry_amended {T : Type} (oracle : Nat → FetchOutcome T)
    (maxRetries : Nat) (baseDelay : ℚ) (jitterFn : Nat → ℚ)
    (hbd : 0 ≤ baseDelay) :
    ((∀ j, (oracle j).isSuccess = false) →
      ∃ ds : List ℚ, ds.length = maxRetries ∧
        fetchWithRetry oracle true maxRetries baseDelay jitterFn =
          ⟨.error (retryFailureMsg maxRetries), maxRetries + 1, ds⟩) ∧
    (∀ (i : Nat) (v : T),
      (∀ j, j < i → (oracle j).isSuccess = false) →
      oracle i = .success v → i ≤ maxRetries →
      ∃ ds : List ℚ, ds.length = i ∧
        fetchWithRetry oracle true maxRetries baseDelay jitterFn =
          ⟨.ok v, i + 1, ds⟩) := by
  have hnneg : ¬ baseDelay < 0 := not_lt.mpr hbd
  constructor
  · intro h
    obtain ⟨ds, hlen, heq⟩ := fetchLoop_allFail oracle maxRetries baseDelay jitterFn h
      maxRetries 0 []
    refine ⟨ds, hlen, ?_⟩
    rw [fetchWithRetry]
    simp only [not_true, Bool.not_true, if_neg, hnneg]
    simpa using heq
  · intro i v hfail hs hle
    obtain ⟨ds, hlen, heq⟩ := fetchLoop_firstSuccess oracle maxRetries baseDelay jitterFn
      i maxRetries 0 [] v (fun j hj => by simpa using hfail j hj) (by simpa using hs) hle
    refine ⟨ds, hlen, ?_⟩
    rw [fetchWithRetry]
    simp only [not_true, Bool.not_true, if_neg, hnneg]
    simpa using heq

/-- C2 witness: a 500 on attempt 0 followed by a success on attempt 1 (with
`maxRetries = 3`) yields the parsed value after exactly 2 attempts. -/
theorem c2_witness :
    (fetchWithRetry (T := Nat)
        (fun j => if j = 0 then .httpError 500 none else .success 42)
        true 3 1000 (fun _ => 0)).result = .ok 42 ∧
    (fetchWithRetry (T := Nat)
        (fun j => if j = 0 then .httpError 500 none else .success 42)
        true 3 1000 (fun _ => 0)).attemptsMade = 2 := by
  obtain ⟨ds, hlen, heq⟩ := (c2_fetchWithRetry_amended
    (fun j => if j = 0 then .httpError 500 none else .success (42 : Nat))
    3 1000 (fun _ => 0) (by norm_num)).2 1 42
    (fun j hj => by interval_cases j; simp [FetchOutcome.isSuccess])
    (by simp) (by omega)
  rw [heq]
  exact ⟨rfl, rfl⟩

/-- C2 counterexample: a non-retryable 404 on every attempt, with
`maxRetries = 3` and `baseDelay = 1000` (zero jitter), makes the code sleep
three backoffs (1000, 2000, 4000 ms) and run 4 attempts before failing —
the claim says the first 404 fails immediately with no further attempt and
no backoff sleep. -/
theorem c2_counterexample :
    fetchWithRetry (T := Nat) (fun _ => .httpError 404 none) true 3 1000 (fun _ => 0) =
      ⟨.error (retryFailureMsg 3), 4, [1000, 2000, 4000]⟩ ∧
    (4 : Nat) ≠ 1 := by
  refine ⟨?_, by decide⟩
  norm_num [fetchWithRetry, fetchLoop, retryDelay, calculateBackoffDelay, retryFailureMsg]

section DecimalRoundTrip

/-- Parsing digits distributes over list append. -/
theorem parseDigits_append (l₁ l₂ : List Char) :
    ∀ acc, parseDigits acc (l₁ ++ l₂) =
      (parseDigits acc l₁).bind (fun a => parseDigits a l₂) := by
  induction l₁ with
  | nil => intro acc; rfl
  | cons c t ih =>
    intro acc
    rcases hc : digitVal c with _ | d
    · simp [parseDigits, hc]
    · simp [parseDigits, hc, ih]

/-- The digit characters round-trip through `digitVal`. -/
theorem digitVal_digitChar (d : Nat) (h : d < 10) :
    digitVal (digitChar d) = some d := by
  interval_cases d <;> decide

/-- Rendering a number below the fuel bound starts with a digit character. -/
theorem natToDigitsAux_head :
    ∀ (fuel n : Nat), n < fuel →
      ∃ d cs, d < 10 ∧ natToDigitsAux fuel n = digitChar d :: cs := by
  intro fuel
  induction fuel with
  | zero => intro n h; omega
  | succ fuel ih =>
    intro n h
    by_cases hn : n < 10
    · exact ⟨n, [], hn, by simp [natToDigitsAux, hn]⟩
    · have hdiv : n / 10 < fuel := by
        have h1 : n / 10 < n := Nat.div_lt_self (by omega) (by omega)
        omega
      obtain ⟨d, cs, hd, heq⟩ := ih (n / 10) hdiv
      exact ⟨d, cs ++ [digitChar (n % 10)], hd, by
        simp [natToDigitsAux, hn, heq]⟩

/-- Parsing the rendered digits of `n` recovers `n` (shifted by the
accumulator). -/
theorem parseDigits_natToDigitsAux :
    ∀ (fuel n : Nat), n < fuel → ∀ acc,
      parseDigits acc (natToDigitsAux fuel n) =
        some (acc * 10 ^ (natToDigitsAux fuel n).length + n) := by
  intro fuel
  induction fuel with
  | zero => intro n h; omega
  | succ fuel ih =>
    intro n h acc
    by_cases hn : n < 10
    · simp [natToDigitsAux, hn, parseDigits, digitVal_digitChar n hn]
    · have hdiv : n / 10 < fuel := by
        have h1 : n / 10 < n := Nat.div_lt_self (by omega) (by omega)
        omega
      have hmod : n % 10 < 10 := Nat.mod_lt _ (by omega)
      simp only [natToDigitsAux, if_neg hn]
      rw [parseDigits_append, ih (n / 10) hdiv acc]
      simp only [Option.some_bind, parseDigits, digitVal_digitChar (n % 10) hmod,
        List.length_append, List.length_cons, List.length_nil, Nat.zero_add]
      congr 1
      rw [pow_succ, ← mul_assoc]
      set k := acc * 10 ^ (natToDigitsAux fuel (n / 10)).length
      omega

/-- Parsing the decimal rendering of a natural number recovers it. -/
theorem parseNatStr_natToDigitsAux (n : Nat) :
    parseNatStr (natToDigitsAux (n + 1) n) = some n := by
  obtain ⟨d, cs, hd, heq⟩ := natToDigitsAux_head (n + 1) n (Nat.lt_succ_self n)
  have hne : (natToDigitsAux (n + 1) n).isEmpty = false := by rw [heq]; rfl
  have hp := parseDigits_natToDigitsAux (n + 1) n (Nat.lt_succ_self n) 0
  simp [parseNatStr, hne, hp]

/-- Reduction of `parseBigInt` on an unsigned character list. -/
theorem parseBigInt_mk_digit (c : Char) (cs : List Char)
    (h1 : ¬ c = '-') (h2 : ¬ c = '+') :
    parseBigInt (String.mk (c :: cs)) =
      (parseNatStr (c :: cs)).map (fun n => (n : Int)) := by
  unfold parseBigInt
  simp [h1, h2]

/-- JavaScript `BigInt` parsing inverts the decimal rendering of naturals. -/
theorem parseBigInt_natToDecString (n : Nat) :
    parseBigInt (natToDecString n) = some (n : Int) := by
  obtain ⟨d, cs, hd, heq⟩ := natToDigitsAux_head (n + 1) n (Nat.lt_succ_self n)
  have h1 : ¬ digitChar d = '-' := by interval_cases d <;> decide
  have h2 : ¬ digitChar d = '+' := by interval_cases d <;> decide
  have hmk : natToDecString n = String.mk (digitChar d :: cs) := by
    rw [natToDecString, heq]
  rw [hmk, parseBigInt_mk_digit _ _ h1 h2, ← heq, parseNatStr_natToDigitsAux]
  rfl

/-- JavaScript `BigInt` parsing inverts the decimal rendering of integers. -/
theorem parseBigInt_intToDecString (q : Int) :
    parseBigInt (intToDecString q) = some q := by
  rcases le_or_lt 0 q with hq | hq
  · have hrepr : intToDecString q = natToDecString q.toNat := by
      rw [intToDecString, if_neg (not_lt.mpr hq)]
    rw [hrepr, parseBigInt_natToDecString, Int.toNat_of_nonneg hq]
  · have hrepr : intToDecString q = "-" ++ natToDecString (-q).toNat := by
      rw [intToDecString, if_pos hq]
    have hdata : ("-" ++ natToDecString (-q).toNat).data =
        '-' :: natToDigitsAux ((-q).toNat + 1) (-q).toNat := by
      rw [String.data_append]; rfl
    rw [hrepr]
    unfold parseBigInt
    rw [hdata]
    simp [parseNatStr_natToDigitsAux]
    all_goals omega

end DecimalRoundTrip

/-- Model of a JavaScript `number` as used by the route-capacity prober:
an exact rational or one of the IEEE special values.  Negative zero is not
distinguished from zero. -/
inductive JsNum where
  | fin (q : ℚ)
  | posInf
  | negInf
  | nan
deriving DecidableEq, Repr

namespace JsNum

/-- JavaScript addition. -/
def add : JsNum → JsNum → JsNum
  | nan, _ => nan
  | _, nan => nan
  | fin a, fin b => fin (a + b)
  | fin _, posInf => posInf
  | fin _, negInf => negInf
  | posInf, fin _ => posInf
  | negInf, fin _ => negInf
  | posInf, posInf => posInf
  | negInf, negInf => negInf
  | posInf, negInf => nan
  | negInf, posInf => nan

/-- JavaScript subtraction. -/
def sub : JsNum → JsNum → JsNum
  | nan, _ => nan
  | _, nan => nan
  | fin a, fin b => fin (a - b)
  | fin _, posInf => negInf
  | fin _, negInf => posInf
  | posInf, fin _ => posInf
  | negInf, fin _ => negInf
  | posInf, posInf => nan
  | negInf, negInf => nan
  | posInf, negInf => posInf
  | negInf, posInf => negInf

/-- JavaScript multiplication (`0 * Infinity = NaN`). -/
def mul : JsNum → JsNum → JsNum
  | nan, _ => nan
  | _, nan => nan
  | fin a, fin b => fin (a * b)
  | fin a, posInf => if a = 0 then nan else if 0 < a then posInf else negInf
  | posInf, fin a => if a = 0 then nan else if 0 < a then posInf else negInf
  | fin a, negInf => if a = 0 then nan else if 0 < a then negInf else posInf
  | negInf, fin a => if a = 0 then nan else if 0 < a then negInf else posInf
  | posInf, posInf => posInf
  | negInf, negInf => posInf
  | posInf, negInf => negInf
  | negInf, posInf => negInf

/-- JavaScript division (`0/0 = NaN`, `x/0 = ±Infinity` for nonzero x,
`x/±Infinity = 0`). -/
def div : JsNum → JsNum → JsNum
  | nan, _ => nan
  | _, nan => nan
  | fin a, fin b =>
    if b = 0 then (if a = 0 then nan else if 0 < a then posInf else negInf)
    else fin (a / b)
  | fin _, posInf => fin 0
  | fin _, negInf => fin 0
  | posInf, fin b => if 0 ≤ b then posInf else negInf
  | negInf, fin b => if 0 ≤ b then negInf else posInf
  | posInf, posInf => nan
  | posInf, negInf => nan
  | negInf, posInf => nan
  | negInf, negInf => nan

/-- JavaScript `Math.min` (NaN-propagating). -/
def minJ : JsNum → JsNum → JsNum
  | nan, _ => nan
  | _, nan => nan
  | fin a, fin b => fin (min a b)
  | negInf, _ => negInf
  | _, negInf => negInf
  | posInf, b => b
  | a, posInf => a

/-- JavaScript `Math.max` (NaN-propagating). -/
def maxJ : JsNum → JsNum → JsNum
  | nan, _ => nan
  | _, nan => nan
  | fin a, fin b => fin (max a b)
  | posInf, _ => posInf
  | _, posInf => posInf
  | negInf, b => b
  | a, negInf => a

/-- JavaScript `Math.sqrt`; the square root of a positive rational is
supplied by the `sqrtFn` oracle (`Math.sqrt(0) = 0` is exact). -/
def sqrtJ (sqrtFn : ℚ → ℚ) : JsNum → JsNum
  | nan => nan
  | negInf => nan
  | posInf => posInf
  | fin q => if q < 0 then nan else if q = 0 then fin 0 else fin (sqrtFn q)

/-- JavaScript `Math.round` (half rounds toward positive infinity). -/
def roundJ : JsNum → JsNum
  | fin q => fin ((⌊q + 1 / 2⌋ : Int) : ℚ)
  | x => x

/-- JavaScript `>=` (false whenever either side is NaN). -/
def geJ : JsNum → JsNum → Bool
  | nan, _ => false
  | _, nan => false
  | fin a, fin b => decide (b ≤ a)
  | posInf, _ => true
  | _, negInf => true
  | negInf, _ => false
  | fin _, posInf => false

/-- `reduce((a, b) => a + b, 0)` over JavaScript numbers. -/
def sum (l : List JsNum) : JsNum := l.foldl add (fin 0)

/-- JavaScript `Number(x)` for `x` a string field that may be absent:
`Number(undefined) = NaN`, `Number("") = 0`, otherwise the parsed decimal
(whitespace trimming and exponent forms are outside the model). -/
def ofOptionString : Option String → JsNum
  | none => nan
  | some s =>
    if s = "" then fin 0
    else
      match parseDecimal s with
      | some q => fin q
      | none => nan

end JsNum

/-- Clamping `Math.max(0, Math.min(100, y))` yields NaN or a rational in
`[0, 100]`, whatever `y` is. -/
theorem clamp_shape (y : JsNum) :
    JsNum.maxJ (.fin 0) (JsNum.minJ (.fin 100) y) = .nan ∨
    ∃ q : ℚ, JsNum.maxJ (.fin 0) (JsNum.minJ (.fin 100) y) = .fin q ∧
      0 ≤ q ∧ q ≤ 100 := by
  rcases y with q | _ | _ | _
  · refine Or.inr ⟨max 0 (min 100 q), rfl, le_max_left _ _, ?_⟩
    have h1 : min 100 q ≤ 100 := min_le_left _ _
    have h2 : (0 : ℚ) ≤ 100 := by norm_num
    exact max_le h2 h1
  · exact Or.inr ⟨max 0 100, rfl, le_max_left _ _, by norm_num⟩
  · exact Or.inr ⟨0, rfl, le_refl _, by norm_num⟩
  · exact Or.inl rfl

/-- Asset of the contract schema (`contract.ts`): decimals are nonnegative
integers (`z.number().int().min(0)`). -/
structure Asset where
  chainId : String
  assetId : String
  symbol : String
  decimals : Nat
deriving DecidableEq, Repr

/-- Ordered source/destination pair. -/
structure Route where
  source : Asset
  destination : Asset
deriving DecidableEq, Repr

/-- The fields of a deBridge quote `estimation` consumed by the service
(`service.ts`, interface `DeBridgeQuote`): the token amounts are strings,
the USD valuations JavaScript numbers; every field the code guards with
`?.`/`??` is optional here. -/
structure Estimation where
  srcAmount : Option String
  srcUsd : Option ℚ
  srcOriginUsd : Option ℚ
  dstAmount : Option String
  dstRecommended : Option String
  dstMaxTheoretical : Option String
  dstUsd : Option ℚ
  dstRecommendedUsd : Option ℚ
  dstMaxTheoreticalUsd : Option ℚ
deriving DecidableEq, Repr

/-- A quote payload; the service checks `quote?.estimation` before use. -/
structure DeBridgeQuote where
  estimation : Option Estimation
deriving DecidableEq, Repr

/-- A produced rate entry (`contract.ts` `Rate`; the `quotedAt` wall-clock
string is outside the model). -/
structure Rate where
  source : Asset
  destination : Asset
  amountIn : String
  amountOut : String
  effectiveRate : ℚ
  totalFeesUsd : Option ℚ
deriving DecidableEq, Repr

/-- One liquidity threshold entry. -/
structure LiquidityDepthPoint where
  maxAmountIn : String
  slippageBps : Nat
deriving DecidableEq, Repr

/-- Liquidity depth of one route (`measuredAt` outside the model). -/
structure LiquidityDepth where
  route : Route
  thresholds : List LiquidityDepthPoint
deriving DecidableEq, Repr

/-- The three volume windows of the contract. -/
inductive TimeWindow where
  | h24
  | d7
  | d30
deriving DecidableEq, Repr

/-- One volume entry (`measuredAt` outside the model). -/
structure VolumeWindow where
  window : TimeWindow
  volumeUsd : ℚ
deriving DecidableEq, Repr

/-- Parsed DefiLlama bridge aggregate, after `parseDefiLlamaResponse`
validated all three numbers. -/
structure DefiLlamaData where
  lastDailyVolume : ℚ
  weeklyVolume : ℚ
  monthlyVolume : ℚ
deriving DecidableEq, Repr

/-- One entry of the `/token-list` response consumed by `getListedAssets`;
`symbol`/`decimals` may be absent (`token.symbol ?? token.address`,
`decimals` defaulting to 18). -/
structure TokenInfo where
  address : String
  symbol : Option String
  decimals : Option Nat
deriving DecidableEq, Repr

/-- Deduplicated listed assets (`measuredAt` outside the model). -/
structure ListedAssets where
  assets : List Asset
deriving DecidableEq, Repr

/-- Route intelligence record (`measuredAt` outside the model); the three
price-impact fields are flattened. -/
structure RouteIntelligence where
  route : Route
  maxCapacityUsd : Option Nat
  optimalRangeUsd : Option (Nat × Nat)
  feeEfficiencyScore : Option JsNum
  priceImpactAt1k : Option JsNum
  priceImpactAt10k : Option JsNum
  priceImpactAt100k : Option JsNum
deriving DecidableEq, Repr

/-- The assembled snapshot. -/
structure ProviderSnapshot where
  volumes : List VolumeWindow
  rates : List Rate
  liquidity : List LiquidityDepth
  listedAssets : ListedAssets
  routeIntelligence : Option (List RouteIntelligence)
deriving DecidableEq, Repr

/-- The environment of one `getSnapshot` call: each upstream interaction is
an oracle.  `quote` is the resilient pipeline of `getRates` (cache → circuit
breaker → deduplicator → `fetchWithRetry`), whose failure modes all surface
as one thrown error; `fetchQuote` is `fetchQuoteWithRetry`, which retries
internally and returns `null` (here `none`) on any failure, and whose
non-null payload always carries an estimation; `llama` is the outcome of
`fetchDefiLlamaVolumes` (`null` on any failure); `tokenList` gives the
parsed token map per chain id (`none` for every failure path); `sqrtFn` is
`Math.sqrt` on positive rationals.  The TTL caches only memoize these
oracles between calls and are modelled separately (C6/C7). -/
structure Env where
  quote : Route → String → Except String DeBridgeQuote
  fetchQuote : Route → String → Option Estimation
  llama : Option DefiLlamaData
  tokenList : String → Option (List TokenInfo)
  sqrtFn : ℚ → ℚ

/-- `isNaN(Number(s))` of JavaScript. -/
def jsNumberIsNaN (s : String) : Bool :=
  match JsNum.ofOptionString (some s) with
  | .nan => true
  | _ => false

/-- One (route, notional) iteration of `getRates`: the notional must be a
numeric string, the quote must arrive, carry an estimation and both
amounts, and the decimal rate computation must succeed — any failure is
caught and the entry omitted (`none`), never synthesized. -/
def processRateItem (env : Env) (route : Route) (notional : String) : Option Rate :=
  if notional = "" ∨ jsNumberIsNaN notional then none
  else
    match env.quote route notional with
    | .error _ => none
    | .ok q =>
      match q.estimation with
      | none => none
      | some est =>
        match est.srcAmount, est.dstRecommended <|> est.dstAmount with
        | some fromAmount, some toAmount =>
          if fromAmount = "" ∨ toAmount = "" then none
          else
            let approxInUsd := est.srcUsd <|> est.srcOriginUsd
            let approxOutUsd := est.dstRecommendedUsd <|> (est.dstUsd <|> est.dstMaxTheoreticalUsd)
            let totalFeesUsd : Option ℚ :=
              match approxInUsd, approxOutUsd with
              | some i, some o => some (max (i - o) 0)
              | _, _ => none
            match DecimalUtils.calculateEffectiveRate fromAmount toAmount
              (route.source.decimals : Int) (route.destination.decimals : Int) with
            | .error _ => none
            | .ok r =>
              some ⟨route.source, route.destination, fromAmount, toAmount, r, totalFeesUsd⟩
        | _, _ => none

/-- Model of `getRates`: per-item degrade over all (route, notional)
combinations; the entry guard is unreachable from `getSnapshot`. -/
def getRates (env : Env) (routes : List Route) (notionals : List String) :
    Except String (List Rate) :=
  if routes.isEmpty ∨ notionals.isEmpty then
    .error "Routes and notionals are required for rate fetching"
  else
    .ok (routes.flatMap fun route => notionals.filterMap (processRateItem env route))

/-- Model of `getVolumes`: a missing DefiLlama aggregate degrades to the
empty list; otherwise one entry per requested window. -/
def getVolumes (env : Env) (windows : List TimeWindow) : List VolumeWindow :=
  match env.llama with
  | none => []
  | some d =>
    windows.map fun w =>
      { window := w,
        volumeUsd :=
          match w with
          | .h24 => d.lastDailyVolume
          | .d7 => d.weeklyVolume
          | .d30 => d.monthlyVolume }

/-- Reference amount of `getLiquidityDepth`: $1000 in source smallest units
(`1000n * 10n ** decimals`). -/
def referenceAmountFor (a : Asset) : String :=
  natToDecString (1000 * 10 ^ a.decimals)

/-- The BigInt scaling `srcBig * maxBig / recommendedBig` of
`getLiquidityDepth` (truncating division), falling back to the source
amount when a string fails to parse (the caught `BigInt` throw) or the
recommended amount is not positive. -/
def maxSourceFor (srcAmount recStr maxStr : String) : String :=
  match parseBigInt srcAmount, parseBigInt recStr, parseBigInt maxStr with
  | some s, some r, some m =>
    if 0 < r then intToDecString ((s * m).tdiv r) else srcAmount
  | _, _, _ => srcAmount

/-- One route of `getLiquidityDepth`: quote at the reference amount, then
publish the 50 bps threshold at the quoted source amount and the 100 bps
threshold at the `maxTheoreticalAmount`-scaled source amount. -/
def routeLiquidity (fetchQuote : Route → String → Option Estimation)
    (route : Route) : Option LiquidityDepth :=
  let referenceAmount := referenceAmountFor route.source
  match fetchQuote route referenceAmount with
  | none => none
  | some est =>
    let srcAmount := est.srcAmount.getD referenceAmount
    let recommendedDest := est.dstRecommended <|> est.dstAmount
    let maxDest := est.dstMaxTheoretical <|> recommendedDest
    match recommendedDest with
    | none => none
    | some recStr =>
      if srcAmount = "" ∨ recStr = "" then none
      else
        let maxSource :=
          match maxDest with
          | some maxStr =>
            if maxStr ≠ "" ∧ recStr ≠ "0" then maxSourceFor srcAmount recStr maxStr
            else srcAmount
          | none => srcAmount
        some { route := route,
               thresholds := [⟨srcAmount, 50⟩, ⟨maxSource, 100⟩] }

/-- Model of `getLiquidityDepth`: failed routes are skipped. -/
def getLiquidityDepth (fetchQuote : Route → String → Option Estimation)
    (routes : List Route) : List LiquidityDepth :=
  routes.filterMap (routeLiquidity fetchQuote)

/-- Insertion-ordered `Set.add`. -/
def insertNew (seen : List String) (k : String) : List String :=
  if k ∈ seen then seen else seen ++ [k]

/-- The deduplicated chain ids of the requested routes, in first-seen order
(JavaScript `Set` iteration order). -/
def routeChainIds (routes : List Route) : List String :=
  routes.foldl
    (fun acc r => insertNew (insertNew acc r.source.chainId) r.destination.chainId) []

/-- Process one chain's token map in `getListedAssets`: tokens without an
address are skipped, asset ids are lowercased, and the `seen` set
deduplicates by `chainId:assetId` across chains. -/
def processChainTokens (chainId : String) (tokens : List TokenInfo)
    (start : List String × List Asset) : List String × List Asset :=
  tokens.foldl
    (fun acc token =>
      if token.address = "" then acc
      else
        let assetId := toLowerString token.address
        let key := chainId ++ ":" ++ assetId
        if key ∈ acc.1 then acc
        else
          (acc.1 ++ [key],
            acc.2 ++ [{ chainId := chainId, assetId := assetId,
                        symbol := token.symbol.getD token.address,
                        decimals := token.decimals.getD 18 }]))
    start

/-- Model of `getListedAssets`: per-chain degrade (a failed chain
contributes nothing), deduplicated by `(chainId, lowercased assetId)`. -/
def getListedAssets (env : Env) (routes : List Route) : ListedAssets :=
  let folded :=
    (routeChainIds routes).foldl
      (fun acc c =>
        match env.tokenList c with
        | none => acc
        | some tokens => processChainTokens c tokens acc)
      ([], [])
  ⟨folded.2⟩

/-- The fixed ascending probe schedule of the route-capacity prober. -/
def probeSizesUsd : List Nat :=
  [1000, 5000, 10000, 50000, 100000, 500000, 1000000, 5000000]

/-- One probe record of the prober. -/
structure ProbeQuote where
  amountUsd : Nat
  effectiveRate : JsNum
  failed : Bool
deriving DecidableEq, Repr

/-- Probe request amount: `Math.floor(sizeUsd * 10 ** decimals)`, computed
exactly (the double rounding of very large products is outside the model). -/
def probeAmountIn (sizeUsd decimals : Nat) : String :=
  natToDecString (sizeUsd * 10 ^ decimals)

/-- The probe record of a successful quote at one size. -/
def probeSuccess (fetch : String → Option Estimation) (decimals s : Nat) : ProbeQuote :=
  match fetch (probeAmountIn s decimals) with
  | some est =>
    ⟨s, JsNum.div (JsNum.ofOptionString est.dstAmount)
        (JsNum.ofOptionString est.srcAmount), false⟩
  | none => ⟨s, .fin 0, true⟩

/-- The probing loop of `getRouteIntelligence`: each size is quoted through
`fetchQuoteWithRetry`; the first failure is recorded and stops the loop, so
no larger size is attempted. -/
def probeLoop (fetch : String → Option Estimation) (decimals : Nat) :
    List Nat → List ProbeQuote
  | [] => []
  | sizeUsd :: rest =>
    match fetch (probeAmountIn sizeUsd decimals) with
    | some est =>
      ⟨sizeUsd, JsNum.div (JsNum.ofOptionString est.dstAmount)
          (JsNum.ofOptionString est.srcAmount), false⟩ :: probeLoop fetch decimals rest
    | none => [⟨sizeUsd, .fin 0, true⟩]

/-- The fee-efficiency score over the successful rates:
`max(0, min(100, 100 - stdDev / avgRate * 100))` in JavaScript arithmetic. -/
def feeScoreOf (sqrtFn : ℚ → ℚ) (rates : List JsNum) : JsNum :=
  let n : JsNum := .fin (rates.length : ℚ)
  let avgRate := JsNum.div (JsNum.sum rates) n
  let variance :=
    JsNum.div
      (rates.foldl
        (fun s r => JsNum.add s (JsNum.mul (JsNum.sub r avgRate) (JsNum.sub r avgRate)))
        (.fin 0))
      n
  let stdDev := JsNum.sqrtJ sqrtFn variance
  JsNum.maxJ (.fin 0)
    (JsNum.minJ (.fin 100)
      (JsNum.sub (.fin 100) (JsNum.mul (JsNum.div stdDev avgRate) (.fin 100))))

/-- `Math.max(...rates)`: a fold from `-Infinity`. -/
def bestRateOf (qs : List ProbeQuote) : JsNum :=
  (qs.map (fun q => q.effectiveRate)).foldl JsNum.maxJ .negInf

/-- The optimal range: first and last successful probe whose rate is within
1% of the best (the float literal `0.99` is modelled as `99/100`). -/
def optimalRangeOf (succ : List ProbeQuote) : Option (Nat × Nat) :=
  let best := bestRateOf succ
  let optimal := succ.filter
    (fun q => JsNum.geJ q.effectiveRate (JsNum.mul best (.fin (99 / 100))))
  match optimal.head?, optimal.getLast? with
  | some a, some b => some (a.amountUsd, b.amountUsd)
  | _, _ => none

/-- Model of the per-route body of `getRouteIntelligence` (the catch-all
that degrades a route to an all-null record guards unexpected exceptions,
which have no counterpart in this pure model). -/
def analyzeRoute (sqrtFn : ℚ → ℚ) (fetch : Route → String → Option Estimation)
    (route : Route) : RouteIntelligence :=
  let quotes := probeLoop (fetch route) route.source.decimals probeSizesUsd
  let succ := quotes.filter (fun q => !q.failed)
  let baselineQuote := succ.find? (fun q => q.amountUsd = 1000)
  let impact := fun (qq : Option ProbeQuote) =>
    match baselineQuote, qq with
    | some b, some q =>
      some (JsNum.roundJ
        (JsNum.mul (JsNum.sub (.fin 1) (JsNum.div q.effectiveRate b.effectiveRate))
          (.fin 10000)))
    | _, _ => none
  { route := route,
    maxCapacityUsd := succ.getLast?.map (fun q => q.amountUsd),
    optimalRangeUsd := if 2 ≤ succ.length then optimalRangeOf succ else none,
    feeEfficiencyScore :=
      if 2 ≤ succ.length then
        some (feeScoreOf sqrtFn (succ.map (fun q => q.effectiveRate)))
      else none,
    priceImpactAt1k := if baselineQuote.isSome then some (.fin 0) else none,
    priceImpactAt10k := impact (succ.find? (fun q => q.amountUsd = 10000)),
    priceImpactAt100k := impact (succ.find? (fun q => q.amountUsd = 100000)) }

/-- Model of `getRouteIntelligence` over all requested routes. -/
def getRouteIntelligence (env : Env) (routes : List Route) : List RouteIntelligence :=
  routes.map (analyzeRoute env.sqrtFn env.fetchQuote)

/-- The input of `getSnapshot` (`includeWindows` defaults to `["24h"]`,
`includeIntelligence` to false). -/
structure SnapshotParams where
  routes : List Route
  notionals : List String
  includeWindows : Option (List TimeWindow)
  includeIntelligence : Bool

/-- Model of `getSnapshot`: fail fast on empty routes or notionals, then
assemble the four base fetches (and optionally the prober) — each of which
degrades internally instead of throwing.  The `getRates` error branch is
made unreachable by the entry guard; it would surface as the wrapped
orchestration-level failure. -/
def getSnapshot (env : Env) (params : SnapshotParams) :
    Except String ProviderSnapshot :=
  if params.routes.isEmpty ∨ params.notionals.isEmpty then
    .error "Routes and notionals are required"
  else
    match getRates env params.routes params.notionals with
    | .error e => .error ("Failed to fetch snapshot: " ++ e)
    | .ok rates =>
      .ok { volumes := getVolumes env (params.includeWindows.getD [.h24]),
            rates := rates,
            liquidity := getLiquidityDepth env.fetchQuote params.routes,
            listedAssets := getListedAssets env params.routes,
            routeIntelligence :=
              if params.includeIntelligence then
                some (getRouteIntelligence env params.routes)
              else none }

/-- A failed quote pipeline makes the (route, notional) item degrade to
`none`, never to a synthesized rate. -/
theorem processRateItem_of_quote_error (env : Env) (route : Route) (notional : String)
    (h : exceptOk (env.quote route notional) = false) :
    processRateItem env route notional = none := by
  rcases hq : env.quote route notional with e | v
  · simp [processRateItem, hq]
  · rw [hq] at h; simp [exceptOk] at h

/-- With nonempty inputs the guard passes and the snapshot is assembled
from the four degrading sub-fetches. -/
theorem getSnapshot_nonempty (env : Env) (params : SnapshotParams)
    (hr : params.routes ≠ []) (hn : params.notionals ≠ []) :
    getSnapshot env params = .ok
      { volumes := getVolumes env (params.includeWindows.getD [.h24]),
        rates := params.routes.flatMap fun route =>
          params.notionals.filterMap (processRateItem env route),
        liquidity := getLiquidityDepth env.fetchQuote params.routes,
        listedAssets := getListedAssets env params.routes,
        routeIntelligence :=
          if params.includeIntelligence then
            some (getRouteIntelligence env params.routes)
          else none } := by
  have h1 : params.routes.isEmpty = false := by
    simpa [List.isEmpty_iff] using hr
  have h2 : params.notionals.isEmpty = false := by
    simpa [List.isEmpty_iff] using hn
  simp [getSnapshot, getRates, h1, h2]

/-- C1: `getSnapshot` fails exactly when `routes` or `notionals` is empty;
when validation passes, a snapshot is returned even if every quote fetch
fails — with an always-failing quote endpoint the per-item handler omits
every (route, notional) rate, `rates` is empty, and no error escapes. -/
theorem c1_getSnapshot_failfast_degrade (env : Env) (params : SnapshotParams) :
    (exceptOk (getSnapshot env params) = true ↔
      params.routes ≠ [] ∧ params.notionals ≠ []) ∧
    (params.routes ≠ [] → params.notionals ≠ [] →
      (∀ r n, exceptOk (env.quote r n) = false) →
      ∃ snap, getSnapshot env params = .ok snap ∧ snap.rates = []) := by
  constructor
  · constructor
    · intro hok
      constructor
      · intro hr
        rw [getSnapshot] at hok
        simp [hr, exceptOk] at hok
      · intro hn
        rw [getSnapshot] at hok
        simp [hn, exceptOk] at hok
    · rintro ⟨hr, hn⟩
      rw [getSnapshot_nonempty env params hr hn]
      rfl
  · intro hr hn hfail
    refine ⟨_, getSnapshot_nonempty env params hr hn, ?_⟩
    simp only
    rw [List.flatMap_eq_nil_iff]
    intro route _
    rw [List.filterMap_eq_nil_iff]
    intro notional _
    exact processRateItem_of_quote_error env route notional (hfail route notional)

/-- Quote environment in which every quote request fails (e.g. the endpoint
always answers HTTP 500 and the retry budget is exhausted), every other
upstream degrades too. -/
def envAllFail : Env :=
  { quote := fun _ _ => .error "HTTP 500: Internal Server Error",
    fetchQuote := fun _ _ => none,
    llama := none,
    tokenList := fun _ => none,
    sqrtFn := fun _ => 0 }

/-- A sample cross-chain route. -/
def sampleRoute : Route :=
  ⟨⟨"1", "0xa0b8", "USDC", 6⟩, ⟨"137", "0x2791", "USDC", 6⟩⟩

/-- A sample valid snapshot request. -/
def sampleParams : SnapshotParams :=
  { routes := [sampleRoute], notionals := ["1000000"],
    includeWindows := some [.h24], includeIntelligence := false }

/-- C1 witness: with one route and one notional against the all-failing
environment the snapshot succeeds with empty `rates`; emptying `routes`
makes the same call fail. -/
theorem c1_witness :
    (∃ snap, getSnapshot envAllFail sampleParams = .ok snap ∧ snap.rates = []) ∧
    exceptOk (getSnapshot envAllFail { sampleParams with routes := [] }) = false := by
  constructor
  · exact (c1_getSnapshot_failfast_degrade envAllFail sampleParams).2
      (by simp [sampleParams]) (by simp [sampleParams]) (fun _ _ => rfl)
  · rw [Bool.eq_false_iff]
    intro htrue
    have h := (c1_getSnapshot_failfast_degrade envAllFail
      { sampleParams with routes := [] }).1.mp htrue
    exact h.1 rfl

/-- The probe record of a size always carries that size. -/
theorem probeSuccess_amountUsd (fetch : String → Option Estimation)
    (decimals s : Nat) : (probeSuccess fetch decimals s).amountUsd = s := by
  unfold probeSuccess
  split <;> rfl

/-- A size whose quote arrives yields an unfailed probe record. -/
theorem probeSuccess_failed_false (fetch : String → Option Estimation)
    (decimals s : Nat) (h : (fetch (probeAmountIn s decimals)).isSome = true) :
    (probeSuccess fetch decimals s).failed = false := by
  unfold probeSuccess
  rcases hf : fetch (probeAmountIn s decimals) with _ | est
  · rw [hf] at h; simp at h
  · simp [hf]

/-- When every size succeeds, the loop probes them all in order. -/
theorem probeLoop_all_success (fetch : String → Option Estimation) (decimals : Nat) :
    ∀ sizes : List Nat,
      (∀ s ∈ sizes, (fetch (probeAmountIn s decimals)).isSome = true) →
      probeLoop fetch decimals sizes = sizes.map (probeSuccess fetch decimals) := by
  intro sizes
  induction sizes with
  | nil => intro _; rfl
  | cons s rest ih =>
    intro h
    have hs := h s (List.mem_cons_self s rest)
    rcases hf : fetch (probeAmountIn s decimals) with _ | est
    · rw [hf] at hs; simp at hs
    · simp [probeLoop, hf, probeSuccess, ih fun x hx => h x (List.mem_cons_of_mem s hx)]

/-- The loop stops at the first failed size: the successful prefix is
probed, the failing size is recorded, and no later size is attempted. -/
theorem probeLoop_stops (fetch : String → Option Estimation) (decimals : Nat) :
    ∀ (pre : List Nat) (fsize : Nat) (rest : List Nat),
      (∀ s ∈ pre, (fetch (probeAmountIn s decimals)).isSome = true) →
      fetch (probeAmountIn fsize decimals) = none →
      probeLoop fetch decimals (pre ++ fsize :: rest) =
        pre.map (probeSuccess fetch decimals) ++ [⟨fsize, .fin 0, true⟩] := by
  intro pre
  induction pre with
  | nil => intro fsize rest _ hfail; simp [probeLoop, hfail]
  | cons s pre ih =>
    intro fsize rest h hfail
    have hs := h s (List.mem_cons_self s pre)
    rcases hf : fetch (probeAmountIn s decimals) with _ | est
    · rw [hf] at hs; simp at hs
    · simp [probeLoop, hf, probeSuccess,
        ih fsize rest (fun x hx => h x (List.mem_cons_of_mem s hx)) hfail]

/-- C8 (amended): the probe schedule is the fixed ascending list
1k, 5k, 10k, 50k, 100k, 500k, 1M, 5M; probing stops at the first failed
size with no larger size attempted; fewer than 2 successful probes leave
`feeEfficiencyScore` and `optimalRangeUsd` null; if all probes succeed then
`maxCapacityUsd` is the largest probed size (5M); and the score, when
non-null, lies in `[0, 100]` unless it is the JavaScript `NaN` (which
arises in degenerate cases such as every successful probe reporting rate
0/0). -/
theorem c8_route_prober_amended :
    (probeSizesUsd = [1000, 5000, 10000, 50000, 100000, 500000, 1000000, 5000000]) ∧
    (∀ (fetch : String → Option Estimation) (decimals : Nat)
       (pre : List Nat) (fsize : Nat) (rest : List Nat),
      probeSizesUsd = pre ++ fsize :: rest →
      (∀ s ∈ pre, (fetch (probeAmountIn s decimals)).isSome = true) →
      fetch (probeAmountIn fsize decimals) = none →
      probeLoop fetch decimals probeSizesUsd =
        pre.map (probeSuccess fetch decimals) ++ [⟨fsize, .fin 0, true⟩]) ∧
    (∀ (sqrtFn : ℚ → ℚ) (fetch : Route → String → Option Estimation) (route : Route),
      ((probeLoop (fetch route) route.source.decimals probeSizesUsd).filter
        (fun q => !q.failed)).length < 2 →
      (analyzeRoute sqrtFn fetch route).feeEfficiencyScore = none ∧
      (analyzeRoute sqrtFn fetch route).optimalRangeUsd = none) ∧
    (∀ (sqrtFn : ℚ → ℚ) (fetch : Route → String → Option Estimation) (route : Route),
      (∀ s ∈ probeSizesUsd,
        (fetch route (probeAmountIn s route.source.decimals)).isSome = true) →
      (analyzeRoute sqrtFn fetch route).maxCapacityUsd = some 5000000) ∧
    (∀ (sqrtFn : ℚ → ℚ) (fetch : Route → String → Option Estimation) (route : Route)
       (x : JsNum),
      (analyzeRoute sqrtFn fetch route).feeEfficiencyScore = some x →
      x = .nan ∨ ∃ q : ℚ, x = .fin q ∧ 0 ≤ q ∧ q ≤ 100) := by
  refine ⟨rfl, ?_, ?_, ?_, ?_⟩
  · intro fetch decimals pre fsize rest hdecomp hpre hfail
    rw [hdecomp]
    exact probeLoop_stops fetch decimals pre fsize rest hpre hfail
  · intro sqrtFn fetch route hlen
    have h2 : ¬ 2 ≤ ((probeLoop (fetch route) route.source.decimals probeSizesUsd).filter
        (fun q => !q.failed)).length := not_le.mpr hlen
    constructor <;> simp [analyzeRoute, h2]
  · intro sqrtFn fetch route hall
    have hloop := probeLoop_all_success (fetch route) route.source.decimals
      probeSizesUsd hall
    have hfilter : (probeLoop (fetch route) route.source.decimals probeSizesUsd).filter
        (fun q => !q.failed) =
        probeSizesUsd.map (probeSuccess (fetch route) route.source.decimals) := by
      rw [hloop]
      apply List.filter_eq_self.mpr
      intro q hq
      obtain ⟨s, hs, rfl⟩ := List.mem_map.mp hq
      simp [probeSuccess_failed_false (fetch route) route.source.decimals s (hall s hs)]
    simp only [analyzeRoute, hfilter, List.getLast?_map]
    have hlast : probeSizesUsd.getLast? = some 5000000 := by decide
    rw [hlast]
    simp [probeSuccess_amountUsd]
  · intro sqrtFn fetch route x hx
    simp only [analyzeRoute] at hx
    by_cases h2 : 2 ≤ ((probeLoop (fetch route) route.source.decimals probeSizesUsd).filter
        (fun q => !q.failed)).length
    · rw [if_pos h2] at hx
      have hx' := Option.some.inj hx
      rw [← hx']
      exact clamp_shape _
    · rw [if_neg h2] at hx
      cases hx

/-- Estimation with unit amounts, producing rate 1 on every probe. -/
def demoEst : Estimation :=
  ⟨some "1", none, none, some "1", none, none, none, none, none⟩

/-- Route whose source asset has 0 decimals, so probe request amounts equal
the probe sizes. -/
def smallRoute : Route :=
  ⟨⟨"1", "0xsrc", "TOK", 0⟩, ⟨"137", "0xdst", "TOK", 0⟩⟩

/-- C8 witness: with quotes failing from the $10k probe on, the loop probes
exactly 1k, 5k and the failing 10k; with an all-success quote endpoint the
discovered capacity is $5M; with a single (failed) probe both analytics are
null. -/
theorem c8_witness :
    (probeLoop (fun s => if s = "10000" then none else some demoEst) 0 probeSizesUsd =
      [1000, 5000].map (probeSuccess (fun s => if s = "10000" then none else some demoEst) 0) ++
        [⟨10000, .fin 0, true⟩]) ∧
    ((analyzeRoute (fun _ => 0) (fun _ _ => some demoEst) smallRoute).maxCapacityUsd =
      some 5000000) ∧
    ((analyzeRoute (fun _ => 0) (fun _ _ => none) smallRoute).feeEfficiencyScore = none ∧
      (analyzeRoute (fun _ => 0) (fun _ _ => none) smallRoute).optimalRangeUsd = none) := by
  refine ⟨?_, ?_, ?_⟩
  · exact c8_route_prober_amended.2.1 _ 0 [1000, 5000] 10000
      [50000, 100000, 500000, 1000000, 5000000] rfl (by decide) (by decide)
  · exact c8_route_prober_amended.2.2.2.1 _ _ smallRoute (fun s _ => rfl)
  · exact c8_route_prober_amended.2.2.1 _ _ smallRoute (by decide)

/-- Estimation whose successful quote reports zero amounts, making the
probe's `Number(out) / Number(in)` evaluate to `0 / 0 = NaN`. -/
def zeroOutputEst : Estimation :=
  ⟨some "0", none, none, some "0", none, none, none, none, none⟩

/-- C8 counterexample: two successful probes whose reported amounts are
both zero give `NaN` rates, mean 0 and standard deviation 0, so the score
is `100 - NaN/0*100 = NaN` — non-null but not in `[0, 100]`, refuting the
claim's unconditional range. -/
theorem c8_counterexample :
    (analyzeRoute (fun _ => 0)
      (fun _ s => if s = "1000" ∨ s = "5000" then some zeroOutputEst else none)
      smallRoute).feeEfficiencyScore = some .nan ∧
    ¬ (∃ q : ℚ, (JsNum.nan : JsNum) = JsNum.fin q ∧ 0 ≤ q ∧ q ≤ 100) := by
  refine ⟨by decide, ?_⟩
  rintro ⟨q, hq, -, -⟩
  cases hq

/-- Parsing the empty string as a BigInt fails. -/
theorem parseBigInt_empty : parseBigInt "" = none := rfl

/-- A string that parses as a BigInt is nonempty. -/
theorem parseBigInt_ne_empty {s : String} {q : Int} (h : parseBigInt s = some q) :
    s ≠ "" := by
  intro hs; subst hs; rw [parseBigInt_empty] at h; cases h

/-- Every produced liquidity entry carries exactly a 50 bps and a 100 bps
threshold, in that order. -/
theorem routeLiquidity_shape (fetch : Route → String → Option Estimation)
    (route : Route) (d : LiquidityDepth)
    (h : routeLiquidity fetch route = some d) :
    ∃ a b, d.thresholds = [⟨a, 50⟩, ⟨b, 100⟩] := by
  simp only [routeLiquidity] at h
  rcases hf : fetch route (referenceAmountFor route.source) with _ | est
  · simp only [hf] at h; cases h
  · simp only [hf] at h
    rcases hrec : est.dstRecommended <|> est.dstAmount with _ | recStr
    · simp only [hrec] at h; cases h
    · simp only [hrec] at h
      by_cases hg : est.srcAmount.getD (referenceAmountFor route.source) = "" ∨ recStr = ""
      · rw [if_pos hg] at h; cases h
      · rw [if_neg hg] at h
        have hd := Option.some.inj h
        exact ⟨_, _, by rw [← hd]⟩

/-- C9 (amended): every entry of `getLiquidityDepth` has exactly the 50 bps
and 100 bps thresholds; and whenever the quoted amounts are well-formed —
the source amount parses to a nonnegative integer, the recommended
destination amount to a positive one, and the max-theoretical destination
amount to one at least as large (the provider's documented relationship) —
the 100 bps threshold is the rendering of `src * maxTheoretical /
recommended`, which parses back to a value at least the 50 bps source
amount.  Without that relationship the 100 bps entry can be smaller, as the
counterexample shows. -/
theorem c9_liquidity_thresholds_amended :
    (∀ (fetch : Route → String → Option Estimation) (routes : List Route)
       (d : LiquidityDepth), d ∈ getLiquidityDepth fetch routes →
      d.thresholds.map (fun t => t.slippageBps) = [50, 100]) ∧
    (∀ (fetch : Route → String → Option Estimation) (route : Route)
       (d : LiquidityDepth) (est : Estimation) (s r m : Int) (recStr maxStr : String),
      routeLiquidity fetch route = some d →
      fetch route (referenceAmountFor route.source) = some est →
      parseBigInt (est.srcAmount.getD (referenceAmountFor route.source)) = some s →
      0 ≤ s →
      (est.dstRecommended <|> est.dstAmount) = some recStr →
      parseBigInt recStr = some r → 0 < r →
      (est.dstMaxTheoretical <|> (est.dstRecommended <|> est.dstAmount)) = some maxStr →
      parseBigInt maxStr = some m → r ≤ m →
      d.thresholds = [⟨est.srcAmount.getD (referenceAmountFor route.source), 50⟩,
        ⟨intToDecString ((s * m).tdiv r), 100⟩] ∧
      s ≤ (s * m).tdiv r ∧
      parseBigInt (intToDecString ((s * m).tdiv r)) = some ((s * m).tdiv r)) := by
  constructor
  · intro fetch routes d hd
    obtain ⟨route, _, hsome⟩ := List.mem_filterMap.mp hd
    obtain ⟨a, b, hth⟩ := routeLiquidity_shape fetch route d hsome
    rw [hth]
    rfl
  · intro fetch route d est s r m recStr maxStr hd hf hs hs0 hrec hr hr0 hmax hm hrm
    have hsrc_ne : ¬ est.srcAmount.getD (referenceAmountFor route.source) = "" :=
      parseBigInt_ne_empty hs
    have hrec_ne : recStr ≠ "" := parseBigInt_ne_empty hr
    have hmax_ne : maxStr ≠ "" := parseBigInt_ne_empty hm
    have hrec_nz : recStr ≠ "0" := by
      intro h0
      rw [h0] at hr
      have : r = 0 := by
        have hdec : parseBigInt "0" = some 0 := by decide
        rw [hdec] at hr
        exact (Option.some.inj hr).symm
      omega
    have hguard : ¬ (est.srcAmount.getD (referenceAmountFor route.source) = "" ∨
        recStr = "") := by
      rintro (h | h)
      · exact hsrc_ne h
      · exact hrec_ne h
    have hms : maxSourceFor (est.srcAmount.getD (referenceAmountFor route.source))
        recStr maxStr = intToDecString ((s * m).tdiv r) := by
      simp [maxSourceFor, hs, hr, hm, hr0]
    have hmax' : (est.dstMaxTheoretical <|> some recStr) = some maxStr := by
      rw [← hrec]; exact hmax
    simp only [routeLiquidity, hf, hrec, hmax', if_neg hguard] at hd
    rw [if_pos ⟨hmax_ne, hrec_nz⟩, hms] at hd
    have hdval := Option.some.inj hd
    refine ⟨by rw [← hdval], ?_, parseBigInt_intToDecString _⟩
    have h1 : (0 : Int) ≤ s * r := mul_nonneg hs0 hr0.le
    have h2 : s * r ≤ s * m := mul_le_mul_of_nonneg_left hrm hs0
    have h3 : (s * m).tdiv r = (s * m) / r :=
      Int.tdiv_eq_ediv (le_trans h1 h2) hr0.le
    have h4 : (s * r) / r = s := Int.mul_ediv_cancel s (ne_of_gt hr0)
    calc s = (s * r) / r := h4.symm
      _ ≤ (s * m) / r := Int.ediv_le_ediv hr0 h2
      _ = (s * m).tdiv r := h3.symm

/-- Estimation whose recommended destination amount is 1000 but whose
max-theoretical amount is only 500 (violating the provider's relationship). -/
def shrunkenMaxEst : Estimation :=
  ⟨some "1000000", none, none, none, some "1000", some "500", none, none, none⟩

/-- C9 counterexample: for a quote reporting `recommendedAmount = 1000` and
`maxTheoreticalAmount = 500`, the 100 bps threshold is
`1000000 * 500 / 1000 = 500000`, strictly below the 50 bps threshold
1000000 — the claimed inequality fails for such a (malformed) quote. -/
theorem c9_counterexample :
    routeLiquidity (fun _ _ => some shrunkenMaxEst) smallRoute =
      some ⟨smallRoute, [⟨"1000000", 50⟩, ⟨"500000", 100⟩]⟩ ∧
    parseBigInt "500000" = some 500000 ∧
    parseBigInt "1000000" = some 1000000 ∧
    (500000 : Int) < 1000000 := by
  refine ⟨by decide, by decide, by decide, by decide⟩

/-- Estimation with a healthy `maxTheoreticalAmount ≥ recommendedAmount`. -/
def healthyMaxEst : Estimation :=
  ⟨some "1000", none, none, none, some "1000", some "2000", none, none, none⟩

/-- C9 witness: for the healthy quote the produced entry has the 50/100 bps
thresholds with the 100 bps amount `1000 * 2000 / 1000 = 2000 ≥ 1000`. -/
theorem c9_witness :
    (⟨smallRoute, [⟨"1000", 50⟩, ⟨"2000", 100⟩]⟩ : LiquidityDepth).thresholds =
      [⟨"1000", 50⟩, ⟨intToDecString (((1000 : Int) * 2000).tdiv 1000), 100⟩] ∧
    (1000 : Int) ≤ ((1000 : Int) * 2000).tdiv 1000 ∧
    (⟨smallRoute, [⟨"1000", 50⟩, ⟨"2000", 100⟩]⟩ : LiquidityDepth).thresholds.map
      (fun t => t.slippageBps) = [50, 100] := by
  have hd : routeLiquidity (fun _ _ => some healthyMaxEst) smallRoute =
      some ⟨smallRoute, [⟨"1000", 50⟩, ⟨"2000", 100⟩]⟩ := by decide
  obtain ⟨hth, hle, -⟩ := c9_liquidity_thresholds_amended.2
    (fun _ _ => some healthyMaxEst) smallRoute
    ⟨smallRoute, [⟨"1000", 50⟩, ⟨"2000", 100⟩]⟩ healthyMaxEst
    1000 1000 2000 "1000" "2000" hd rfl (by decide) (by decide) rfl (by decide)
    (by decide) rfl (by decide) (by decide)
  refine ⟨hth, hle, ?_⟩
  exact c9_liquidity_thresholds_amended.1 (fun _ _ => some healthyMaxEst) [smallRoute]
    ⟨smallRoute, [⟨"1000", 50⟩, ⟨"2000", 100⟩]⟩
    (by simp [getLiquidityDepth, List.mem_filterMap]; exact hd)

end DataProvider
